import Mathlib

/-!
Verification of the Shadow-Reddit concurrent generation / incremental
delivery engine, shallowly embedded from the Go source (`main` package:
the `/start` background goroutine, the `/ws` delta streamer,
`RenderCommentRecursive`, `NewSession`, and `generateStances`).

Conventions of the embedding:
* Go slices become `List`, struct fields keep their Go names.
* The external text-generation collaborator (OpenAI) is modelled as an
  oracle of outcomes supplied as parameters; each generation call is
  attempted exactly once, matching the source.
* Go code that would panic on an out-of-range index is totalized with
  `List.getD`; every such site is only reached in range, which the
  surrounding lemmas establish.
-/

namespace ShadowReddit

/-- `Stance` from the source: a single stance descriptor
(`Type`, `SubType`, `Summary`). `Type` is renamed `Type_` because `Type`
is a Lean keyword. -/
structure Stance where
  Type_ : String
  SubType : String
  Summary : String
deriving Repr, DecidableEq, Inhabited

/-- `SimulatedComment` from the source: a comment-style response with a
recursively nested list of replies. -/
inductive SimulatedComment where
  | mk (Username : String) (Flair : String) (Text : String)
       (Replies : List SimulatedComment)

namespace SimulatedComment

def Username : SimulatedComment → String
  | .mk u _ _ _ => u

def Flair : SimulatedComment → String
  | .mk _ f _ _ => f

def Text : SimulatedComment → String
  | .mk _ _ t _ => t

def Replies : SimulatedComment → List SimulatedComment
  | .mk _ _ _ r => r

instance : Inhabited SimulatedComment := ⟨.mk "" "" "" []⟩

end SimulatedComment

/-- A convenience constructor mirroring Go struct literals
`SimulatedComment{Username: u, Flair: f, Text: t}` (replies start empty). -/
def mkComment (u f t : String) : SimulatedComment := .mk u f t []

/-- Append a reply to a comment, the only mutation the source ever
performs on an existing comment
(`sess.Responses[parentIndex].Replies = append(..., child)`). -/
def SimulatedComment.pushReply (c : SimulatedComment) (child : SimulatedComment) :
    SimulatedComment :=
  .mk c.Username c.Flair c.Text (c.Replies ++ [child])

/-! ### Markup nodes and `RenderCommentRecursive`

The markup library (`Div`, `Span`, `P`, `Class`, `Text`, `Node.Render`)
is code of this repository that is not under `src/`.
Modelled from the spec: "HTML/markup rendering of a comment into a
presentational string" is an external collaborator, so we model the node
tree the source builds and treat the final `.Render()` serialization as
out of scope; an event's informational content is the node tree. -/

/-- Modelled from the spec: the markup node type of the missing rendering
library. Constructors mirror the combinators the source calls
(`Div`, `Span`, `P` take child nodes; `Class` and `Text` are leaves). -/
inductive Node where
  | ClassA (s : String)
  | TextN (s : String)
  | Div (children : List Node)
  | Span (children : List Node)
  | P (children : List Node)

mutual

/-- All text leaves of a node tree, in document order.  This is the part
of the presentational output the claims are about (which comment/reply
texts an event carries). -/
def textsIn : Node → List String
  | .ClassA _ => []
  | .TextN s => [s]
  | .Div cs => textsInList cs
  | .Span cs => textsInList cs
  | .P cs => textsInList cs

/-- `textsIn` mapped over a child list (the Go variadic arguments). -/
def textsInList : List Node → List String
  | [] => []
  | n :: ns => textsIn n ++ textsInList ns

end

mutual

/-- `RenderCommentRecursive` from the source: renders a single comment,
then any child replies, with an indentation class derived from
`indentLevel`.  Note that the node it returns embeds the comment's
replies recursively. -/
def RenderCommentRecursive : SimulatedComment → Nat → Node
  | .mk username flair text replies, indentLevel =>
    let indentClass := "ml-" ++ toString (indentLevel * 6)
    let mainComment := Node.Div
      [Node.ClassA ("bg-white p-4 rounded shadow mb-4 " ++ indentClass),
       Node.Div
         [Node.ClassA "flex items-center justify-between",
          Node.Span [Node.ClassA "font-semibold text-blue-700", Node.TextN username],
          Node.Span [Node.ClassA "text-sm text-gray-500", Node.TextN flair]],
       Node.P [Node.ClassA "mt-2 text-gray-800", Node.TextN text]]
    if replies.length = 0 then mainComment
    else Node.Div (mainComment :: renderChildren replies (indentLevel + 1))

/-- The `for _, child := range c.Replies` loop of `RenderCommentRecursive`:
renders each child at the incremented indent level. -/
def renderChildren : List SimulatedComment → Nat → List Node
  | [], _ => []
  | child :: rest, lvl => RenderCommentRecursive child lvl :: renderChildren rest lvl

end

/-! ### Delta events and the `/ws` streamer

The `/ws` handler (source lines 181-255) keeps per-observer counters
`lastSentTopLevel` and `replyCounts`, and in a polling loop sends JSON
messages of kind `comment`, `reply` and `done`.  We model one JSON
message as an `Event`; its `parentIndex` string field carries the
decimal rendering of a natural number, modelled as the number itself,
and its `html` field carries the node tree whose `.Render()`
serialization the source sends (the serializer itself is the
out-of-scope presentational collaborator). -/

/-- One delta message written by the `/ws` handler. -/
inductive Event where
  | comment (parentIndex : Nat) (html : Node)
  | reply (parentIndex : Nat) (html : Node)
  | done

/-- The session data one loop iteration of the `/ws` handler reads under
the lock: `sess.Responses` and `sess.Done`. -/
structure Snapshot where
  responses : List SimulatedComment
  done : Bool

/-- The per-observer counters of the `/ws` handler:
`lastSentTopLevel` and `replyCounts`. -/
structure ObsState where
  lastSentTopLevel : Nat
  replyCounts : List Nat

/-- Observer initialization (source lines 202-208): `lastSentTopLevel`
starts at 0 and `replyCounts` is `make([]int, len(sess.Responses))`,
i.e. one zero per response already present when the observer attaches. -/
def attachState (snap : Snapshot) : ObsState :=
  ⟨0, List.replicate snap.responses.length 0⟩

/-- The body of the first `for` loop of an iteration (source lines
215-226), which walks the still-unsent suffix of `sess.Responses`:
for each comment it emits a `comment` event carrying
`RenderCommentRecursive(comment, 0)`, increments `lastSentTopLevel`, and
appends `len(comment.Replies)` to `replyCounts`.  The argument `pending`
is the unsent suffix `responses[lastSent:]`. -/
def sendNewTopLevelGo :
    List SimulatedComment → Nat → List Nat → List Event × Nat × List Nat
  | [], lastSent, counts => ([], lastSent, counts)
  | c :: pending, lastSent, counts =>
    let r := sendNewTopLevelGo pending (lastSent + 1) (counts ++ [c.Replies.length])
    (Event.comment lastSent (RenderCommentRecursive c 0) :: r.1, r.2.1, r.2.2)

/-- The first `for` loop of an iteration: `while lastSentTopLevel <
len(sess.Responses)` processes exactly the suffix
`sess.Responses[lastSentTopLevel:]`. -/
def sendNewTopLevel (responses : List SimulatedComment) (lastSent : Nat)
    (counts : List Nat) : List Event × Nat × List Nat :=
  sendNewTopLevelGo (responses.drop lastSent) lastSent counts

/-- The body of the second `for` loop of an iteration (source lines
229-245): for each comment index `i`, if `len(comment.Replies)` exceeds
`replyCounts[i]`, emit one `reply` event per reply index in
`[replyCounts[i], len(comment.Replies))` and set `replyCounts[i]` to the
new count.  `i` is the index of the head of `remaining` in the full
response list.  `counts.getD i 0` totalizes Go's `replyCounts[i]`; all
reachable states satisfy `i < counts.length` (see `sendNewReplies` call
sites), so the default is never taken. -/
def sendNewRepliesGo :
    List SimulatedComment → Nat → List Nat → List Event × List Nat
  | [], _, counts => ([], counts)
  | c :: remaining, i, counts =>
    let newReplyCount := c.Replies.length
    let old := counts.getD i 0
    if old < newReplyCount then
      let evs := (List.range' old (newReplyCount - old)).map
        (fun r => Event.reply i (RenderCommentRecursive (c.Replies.getD r default) 1))
      let rest := sendNewRepliesGo remaining (i + 1) (counts.set i newReplyCount)
      (evs ++ rest.1, rest.2)
    else
      sendNewRepliesGo remaining (i + 1) counts

/-- The second `for` loop of an iteration, over all of `sess.Responses`
starting at index 0. -/
def sendNewReplies (responses : List SimulatedComment) (counts : List Nat) :
    List Event × List Nat :=
  sendNewRepliesGo responses 0 counts

/-- One iteration of the `/ws` polling loop (source lines 210-253): read
`done` and `sess.Responses` under the lock, run the two emission loops,
and, if `done` was observed, send the `done` event and stop (the `Bool`
result). -/
def streamIteration (st : ObsState) (snap : Snapshot) :
    List Event × ObsState × Bool :=
  let t := sendNewTopLevel snap.responses st.lastSentTopLevel st.replyCounts
  let r := sendNewReplies snap.responses t.2.2
  if snap.done then
    (t.1 ++ r.1 ++ [Event.done], ⟨t.2.1, r.2⟩, true)
  else
    (t.1 ++ r.1, ⟨t.2.1, r.2⟩, false)

/-- The `/ws` polling loop: each element of `snaps` is the session state
the loop reads in one iteration (the sleep between iterations is the
suspension point where the session may change).  The loop returns after
the iteration that observed `done = true`. -/
def streamRun (st : ObsState) : List Snapshot → List Event
  | [] => []
  | snap :: snaps =>
    let it := streamIteration st snap
    if it.2.2 then it.1 else it.1 ++ streamRun it.2.1 snaps

/-- The `parentIndex` values of the `comment` events of a stream, in
emission order. -/
def commentIndices (evs : List Event) : List Nat :=
  evs.filterMap fun e =>
    match e with
    | .comment i _ => some i
    | _ => none

/-- The payloads of the `reply` events for parent index `i`, in emission
order. -/
def replyHtmlsFor (i : Nat) (evs : List Event) : List Node :=
  evs.filterMap fun e =>
    match e with
    | .reply j h => if j = i then some h else none
    | _ => none

/-- Whether a stream contains a `comment` event for index `i`. -/
def hasCommentFor (i : Nat) (evs : List Event) : Prop :=
  ∃ h, Event.comment i h ∈ evs

/-- Session growth between two observations: the source only ever
appends to a comment's `Replies` and never rewrites `Username`, `Flair`
or `Text`. -/
def commentLE (c1 c2 : SimulatedComment) : Prop :=
  c1.Username = c2.Username ∧ c1.Flair = c2.Flair ∧ c1.Text = c2.Text ∧
    ∃ t, c1.Replies ++ t = c2.Replies

/-- Session growth between two observations: `Responses` only grows by
append, and each already-present comment only grows per `commentLE`. -/
def snapLE (s1 s2 : Snapshot) : Prop :=
  s1.responses.length ≤ s2.responses.length ∧
    ∀ i (h1 : i < s1.responses.length) (h2 : i < s2.responses.length),
      commentLE (s1.responses.get ⟨i, h1⟩) (s2.responses.get ⟨i, h2⟩)

/-! ### `generateStances`

`generateStances` (source lines 446-519) marshals the static catalog
into the request (marshalling of static data cannot fail and is not
modelled), sends one chat request, and then branches on the response:
transport error, missing function call, arguments that fail to
unmarshal, or arguments that unmarshal into a `StanceSelectionResponse`.
`ChatOutcome` enumerates exactly these four cases of the collaborator's
answer; the JSON decoder itself is the external boundary. -/

/-- The four possible outcomes of the stance-selection chat call, as the
source distinguishes them. -/
inductive ChatOutcome where
  | apiError (msg : String)
  | noFunctionCall
  | badArguments (msg : String)
  | arguments (parsed : List Stance)

/-- `generateStances` from the source, as a function of the chat
outcome.  Note: the returned list is `parsed.Stances` as decoded, with
no check of its length against the 5-8 policy stated in the prompt. -/
def generateStances (outcome : ChatOutcome) : Except String (List Stance) :=
  match outcome with
  | .apiError m => .error ("failed to get response from OpenAI: " ++ m)
  | .noFunctionCall => .error "no function call in OpenAI response"
  | .badArguments m => .error ("failed to unmarshal function response: " ++ m)
  | .arguments parsed => .ok parsed

/-! ### The session and the `/start` background goroutine

`RedditSession`s mutable fields and the orchestration goroutine
(source lines 94-162).  The goroutine runs concurrently with one reply
goroutine per appended comment and a joining goroutine that waits on the
`sync.WaitGroup` and then sets `Done`.  We model this as a small-step
system: the session-mutating statements of each goroutine become
`OrchAction`s, each goroutine becomes a queue of pending actions, and a
schedule chooses which runnable goroutine performs its next action.
Actions are exactly the locked (or, for `setError`/`markDone`,
unlocked - see `sessionFieldAccesses`) session mutations of the
source. -/

/-- The mutable state of a `RedditSession` that the goroutines and the
streamer share (`ID`, `Prompt`, `Subreddit` are immutable after
creation and carried separately where needed). -/
structure SessionState where
  SelectedStances : List Stance
  Responses : List SimulatedComment
  Done : Bool
  Error : Option String

/-- The empty session state a fresh `RedditSession` starts from. -/
def SessionState.init : SessionState := ⟨[], [], false, none⟩

/-- `sess.Responses[parentIndex].Replies = append(...)` (source line
152): append `child` to the replies of the comment at `i`.  Go would
panic if `i` were out of range; the orchestrator only uses indices
captured at append time, so the identity fallback is never reached. -/
def appendReplyAt (responses : List SimulatedComment) (i : Nat)
    (child : SimulatedComment) : List SimulatedComment :=
  match responses.get? i with
  | some c => responses.set i (c.pushReply child)
  | none => responses

/-- One session-mutating statement of one of the goroutines.
`spawnReply` is the `go func(parentIndex, parentText)` statement: it
mutates nothing but makes a new goroutine (its queued actions) runnable. -/
inductive OrchAction where
  | setStances (l : List Stance)
  | setError (e : String)
  | markDone
  | appendComment (c : SimulatedComment)
  | spawnReply (parentIndex : Nat) (acts : List OrchAction)
  | appendReply (parentIndex : Nat) (child : SimulatedComment)

/-- Effect of one action on the session state (`spawnReply` is handled
by the scheduler, not here). -/
def applyAction (st : SessionState) : OrchAction → SessionState
  | .setStances l => { st with SelectedStances := l }
  | .setError e => { st with Error := some e }
  | .markDone => { st with Done := true }
  | .appendComment c => { st with Responses := st.Responses ++ [c] }
  | .spawnReply _ _ => st
  | .appendReply i child => { st with Responses := appendReplyAt st.Responses i child }

/-- A configuration of the running orchestration: the main goroutine's
remaining actions, each spawned reply goroutine's remaining actions, and
the shared session state. -/
structure OrchConfig where
  mainRem : List OrchAction
  unitsRem : List (List OrchAction)
  sess : SessionState

/-- A scheduler choice: advance the main goroutine, advance spawned
reply goroutine `u`, or run the joining goroutine (which models
`wg.Wait(); sess.Done = true`, enabled only once the main loop has ended
and every spawned reply goroutine has finished). -/
inductive SchedChoice where
  | mainStep
  | unitStep (u : Nat)
  | joinStep

/-- One scheduler step.  A choice whose goroutine has nothing left to do
(or whose join precondition fails) is a no-op, so every schedule is
well-formed and reachable states are exactly the states of some
schedule. -/
def stepChoice (cfg : OrchConfig) : SchedChoice → OrchConfig
  | .mainStep =>
    match cfg.mainRem with
    | [] => cfg
    | a :: rest =>
      match a with
      | .spawnReply _ acts =>
        { cfg with mainRem := rest, unitsRem := cfg.unitsRem ++ [acts] }
      | _ => { cfg with mainRem := rest, sess := applyAction cfg.sess a }
  | .unitStep u =>
    match cfg.unitsRem.get? u with
    | some (a :: rest) =>
      { cfg with unitsRem := cfg.unitsRem.set u rest, sess := applyAction cfg.sess a }
    | _ => cfg
  | .joinStep =>
    if cfg.mainRem.isEmpty && cfg.unitsRem.all List.isEmpty then
      { cfg with sess := { cfg.sess with Done := true } }
    else cfg

/-- Run a whole schedule. -/
def runSched (cfg : OrchConfig) : List SchedChoice → OrchConfig
  | [] => cfg
  | ch :: rest => runSched (stepChoice cfg ch) rest

/-- All configurations a schedule passes through, starting configuration
included. -/
def runTrace (cfg : OrchConfig) : List SchedChoice → List OrchConfig
  | [] => [cfg]
  | ch :: rest => cfg :: runTrace (stepChoice cfg ch) rest

/-- The outcomes of the text-generation collaborator for one session, one
per call the source makes: the stance-selection chat outcome, the
per-iteration top-level generation result, and the per-parent-index
reply generation result.  `replyUsername` is the value
`randomReplyUsername()` returns inside reply goroutine `k`. -/
structure Collab where
  stanceOutcome : ChatOutcome
  commentResult : Nat → Except String String
  replyResult : Nat → Except String String
  replyUsername : Nat → String

/-- The top-level comment built at source lines 121-125:
`Username: type_subtype, Flair: type, Text: text`, no replies yet. -/
def mkTopComment (stance : Stance) (text : String) : SimulatedComment :=
  mkComment (stance.Type_ ++ "_" ++ stance.SubType) stance.Type_ text

/-- The reply comment built at source lines 145-149. -/
def mkReplyComment (username text : String) : SimulatedComment :=
  mkComment username "reply" text

/-- The actions of reply goroutine `parentIndex` (source lines 135-154):
on generation failure it only logs and finishes; on success it appends
the child under the lock and finishes. -/
def replyUnitActions (c : Collab) (parentIndex : Nat) : List OrchAction :=
  match c.replyResult parentIndex with
  | .error _ => []
  | .ok replyText =>
    [.appendReply parentIndex (mkReplyComment (c.replyUsername parentIndex) replyText)]

/-- The `for _, stance := range selectedStances` loop (source lines
112-155), with `k` the number of comments already appended (the source's
`idx := len(sess.Responses)` equals `k` because only this loop appends
to `Responses`): each iteration either records the failure and breaks,
or appends the built comment and spawns its reply goroutine. -/
def commentLoopActions (c : Collab) : List Stance → Nat → List OrchAction
  | [], _ => []
  | stance :: rest, k =>
    match c.commentResult k with
    | .error e => [.setError e]
    | .ok text =>
      .appendComment (mkTopComment stance text) ::
      .spawnReply k (replyUnitActions c k) ::
      commentLoopActions c rest (k + 1)

/-- The main background goroutine (source lines 94-162): on
stance-selection failure it records the error and sets `Done` itself and
returns; otherwise it stores the stances and runs the comment loop (the
joining goroutine it spawns at line 158 is the scheduler's
`joinStep`). -/
def mainActions (c : Collab) : List OrchAction :=
  match generateStances c.stanceOutcome with
  | .error e => [.setError e, .markDone]
  | .ok stances => .setStances stances :: commentLoopActions c stances 0

/-- The initial configuration right after `/start` spawns the background
goroutine on a fresh session. -/
def initConfig (c : Collab) : OrchConfig :=
  { mainRem := mainActions c, unitsRem := [], sess := SessionState.init }

/-! ### Session store and the `/start` handler -/

/-- The immutable identification of a `RedditSession` (its mutable part
is `SessionState`). -/
structure RedditSession where
  ID : String
  Prompt : String
  Subreddit : String

/-- `NewSession` from the source (lines 395-406): builds a session with
a fresh identifier and registers it in the global `sessions` map
(modelled as an association list; `randomID()` is modelled by the
`freshId` argument). -/
def NewSession (prompt subreddit freshId : String)
    (store : List (String × RedditSession)) :
    RedditSession × List (String × RedditSession) :=
  let s : RedditSession := { ID := freshId, Prompt := prompt, Subreddit := subreddit }
  (s, (freshId, s) :: store)

/-- The observable response of the `/start` handler. -/
inductive StartOutcome where
  | methodNotAllowed
  | parseFormError
  | emptyPrompt
  | redirect (location : String)

/-- The `/start` handler (source lines 73-165) up to its response:
method check, form parsing (modelled by the `parseOk` flag), the empty
prompt rejection, then `NewSession` and the redirect to
`/session?id=...`. -/
def startHandler (method : String) (parseOk : Bool) (prompt subreddit : String)
    (freshId : String) (store : List (String × RedditSession)) :
    StartOutcome × List (String × RedditSession) :=
  if method ≠ "POST" then (.methodNotAllowed, store)
  else if !parseOk then (.parseFormError, store)
  else if prompt = "" then (.emptyPrompt, store)
  else
    let (s, store') := NewSession prompt subreddit freshId store
    (.redirect ("/session?id=" ++ s.ID), store')

/-! ### Lock discipline (transcription)

Claim C10 is about which accesses of the session's mutable fields hold
`sessionsMutex`.  This is a syntactic property of the source, so we
transcribe, statement by statement, every read and write of
`SelectedStances`, `Responses`, `Done`, `Error` and any `Replies` slice
in the handler file, together with whether the statement executes
between `sessionsMutex.Lock()` and `sessionsMutex.Unlock()`.  (Reads of
the immutable `Prompt` field, e.g. at line 138, are outside the claim's
field list.) -/

/-- A mutable session field, as the spec groups them. -/
inductive SessField where
  | stances
  | comments
  | complete
  | failure
  | replies
deriving DecidableEq, Repr

/-- Read or write. -/
inductive AccessKind where
  | read
  | write
deriving DecidableEq, Repr

/-- One access of a mutable session field in the source: which field,
read or write, the source line, and whether the statement runs while
holding `sessionsMutex`. -/
structure Access where
  field : SessField
  kind : AccessKind
  line : Nat
  locked : Bool
deriving DecidableEq, Repr

/-- Every access of a session's mutable fields in the handler file.
Line numbers refer to the handler source. -/
def sessionFieldAccesses : List Access :=
  [ -- /start background goroutine, stance-selection failure path
    ⟨.failure, .write, 101, false⟩,   -- sess.Error = err (no lock held)
    ⟨.complete, .write, 102, false⟩,  -- sess.Done = true (no lock held)
    -- storing the stances
    ⟨.stances, .write, 108, true⟩,    -- sess.SelectedStances = selectedStances
    -- comment loop failure path
    ⟨.failure, .write, 116, false⟩,   -- sess.Error = err (no lock held)
    -- appending a top-level comment
    ⟨.comments, .read, 129, true⟩,    -- idx := len(sess.Responses)
    ⟨.comments, .write, 130, true⟩,   -- sess.Responses = append(...)
    -- reply goroutine appending its child
    ⟨.comments, .read, 152, true⟩,    -- sess.Responses[parentIndex]
    ⟨.replies, .write, 152, true⟩,    -- ....Replies = append(...)
    -- joining goroutine
    ⟨.complete, .write, 160, false⟩,  -- sess.Done = true after wg.Wait (no lock held)
    -- /ws handler: observer attach
    ⟨.comments, .read, 207, true⟩,    -- make([]int, len(sess.Responses))
    -- /ws polling iteration
    ⟨.complete, .read, 212, true⟩,    -- done := sess.Done
    ⟨.comments, .read, 215, true⟩,    -- len(sess.Responses)
    ⟨.comments, .read, 216, true⟩,    -- sess.Responses[lastSentTopLevel]
    ⟨.replies, .read, 225, true⟩,     -- len(comment.Replies)
    ⟨.comments, .read, 229, true⟩,    -- range sess.Responses
    ⟨.replies, .read, 230, true⟩,     -- len(comment.Replies)
    ⟨.replies, .read, 234, true⟩ ]    -- comment.Replies[r]

/-! ## Basic rendering lemmas -/

/-- `textsIn` of an element is contained in `textsInList` of any list
holding it. -/
theorem mem_textsInList {x : String} {n : Node} {ns : List Node}
    (hn : n ∈ ns) (hx : x ∈ textsIn n) : x ∈ textsInList ns := by
  induction ns with
  | nil => cases hn
  | cons hd tl ih =>
    rw [textsInList]
    rcases List.mem_cons.mp hn with h | h
    · exact List.mem_append_left _ (h ▸ hx)
    · exact List.mem_append_right _ (ih h)

/-- The comment's own text always appears in its rendering. -/
theorem text_mem_render (c : SimulatedComment) (lvl : Nat) :
    c.Text ∈ textsIn (RenderCommentRecursive c lvl) := by
  obtain ⟨u, f, t, replies⟩ := c
  rw [RenderCommentRecursive]
  by_cases h : replies.length = 0 <;>
    simp [h, textsIn, textsInList, SimulatedComment.Text]

/-- `renderChildren` renders each member of the list. -/
theorem render_mem_renderChildren {rp : SimulatedComment}
    {replies : List SimulatedComment} (h : rp ∈ replies) (lvl : Nat) :
    RenderCommentRecursive rp lvl ∈ renderChildren replies lvl := by
  induction replies with
  | nil => cases h
  | cons hd tl ih =>
    rw [renderChildren]
    rcases List.mem_cons.mp h with h2 | h2
    · exact h2 ▸ List.mem_cons_self _ _
    · exact List.mem_cons_of_mem _ (ih h2)

/-- `RenderCommentRecursive` embeds the text of every reply the comment
has at rendering time: the rendering is the rendering of the whole
subtree, not of the comment alone. -/
theorem reply_text_mem_render (c : SimulatedComment) (lvl : Nat) :
    ∀ rp ∈ c.Replies, rp.Text ∈ textsIn (RenderCommentRecursive c lvl) := by
  obtain ⟨u, f, t, replies⟩ := c
  intro rp hrp
  have hne : replies.length ≠ 0 := by
    intro h0
    rw [List.length_eq_zero] at h0
    subst h0
    cases hrp
  rw [RenderCommentRecursive]
  simp only [SimulatedComment.Replies] at hrp
  simp only [hne, if_false, textsIn]
  rw [textsInList]
  refine List.mem_append_right _ ?_
  exact mem_textsInList (render_mem_renderChildren hrp (lvl + 1))
    (text_mem_render rp (lvl + 1))

/-! ## Concrete fixtures used by counterexamples and witnesses -/

/-- A reply as the reply goroutine builds it. -/
def rC1 : SimulatedComment := mkReplyComment "ReplyMaster" "r0"

/-- A top-level comment that already carries one reply. -/
def cC1 : SimulatedComment := (mkComment "supportive_strong_agreement" "supportive" "t0").pushReply rC1

/-- A completed one-comment session as an observer attaching late sees
it. -/
def snapC1 : Snapshot := ⟨[cC1], true⟩

/-- A concrete stance from the catalog. -/
def stanceSupportive : Stance :=
  { Type_ := "supportive", SubType := "strong_agreement",
    Summary := "Full support, clear siding with OP." }

/-! ## Claim C1 -/

/-- Claim C1 (code bug): an observer that attaches after a comment and
its reply already exist does not receive each reply exactly once.  At
the concrete session `snapC1` (one comment `cC1` whose reply `rC1` was
already appended, session done), the very first polling iteration emits
a `comment` event whose payload is the recursive rendering of `cC1` -
which already embeds the reply text `"r0"` - and then, because
`replyCounts[0]` was initialized to 0 by `make([]int, 1)` while the
send-time reply count was appended at position 1, also emits a separate
`reply` event for the same reply.  The reply is therefore delivered
twice to this observer. -/
theorem late_attach_duplicates_reply :
    streamRun (attachState snapC1) [snapC1] =
      [Event.comment 0 (RenderCommentRecursive cC1 0),
       Event.reply 0 (RenderCommentRecursive rC1 1),
       Event.done]
    ∧ "r0" ∈ textsIn (RenderCommentRecursive cC1 0)
    ∧ "r0" ∈ textsIn (RenderCommentRecursive rC1 1) := by
  refine ⟨?_, ?_, ?_⟩
  · simp [snapC1, cC1, rC1, mkComment, mkReplyComment, SimulatedComment.pushReply,
      attachState, streamRun, streamIteration, sendNewTopLevel,
      sendNewTopLevelGo, sendNewReplies, sendNewRepliesGo,
      SimulatedComment.Replies, SimulatedComment.Username, SimulatedComment.Flair,
      SimulatedComment.Text, List.range']
  · simp [cC1, rC1, mkComment, mkReplyComment, SimulatedComment.pushReply,
      RenderCommentRecursive, renderChildren, textsIn, textsInList,
      SimulatedComment.Replies, SimulatedComment.Username, SimulatedComment.Flair,
      SimulatedComment.Text]
  · simp [rC1, mkReplyComment, mkComment, RenderCommentRecursive, renderChildren,
      textsIn, textsInList, SimulatedComment.Replies, SimulatedComment.Username,
      SimulatedComment.Flair, SimulatedComment.Text]

/-! ## Claim C2 -/

/-- Claim C2 (counterexample): the payload of a `comment` event is NOT
the rendering of the comment excluding its replies.  For the concrete
comment `cC1` (one reply), the node the streamer sends -
`RenderCommentRecursive cC1 0` - differs from the rendering of the same
comment with its replies removed: it embeds the reply's texts. -/
theorem comment_event_includes_replies_cex :
    RenderCommentRecursive cC1 0 ≠
      RenderCommentRecursive (mkComment "supportive_strong_agreement" "supportive" "t0") 0 := by
  intro h
  have h2 := congrArg textsIn h
  simp [cC1, rC1, mkComment, mkReplyComment, SimulatedComment.pushReply,
    RenderCommentRecursive, renderChildren, textsIn, textsInList,
    SimulatedComment.Replies, SimulatedComment.Username, SimulatedComment.Flair,
    SimulatedComment.Text] at h2

/-- Claim C2 (amended): every `comment` event the streamer emits for a
top-level index `i` carries `RenderCommentRecursive` of the comment at
`i` as it is at emission time - i.e. the recursive rendering including
any replies the comment already has, whose texts all appear in the
payload - rather than a rendering of the Comment alone excluding its
replies. -/
theorem comment_events_are_recursive_renders
    (responses : List SimulatedComment) (lastSent : Nat) (counts : List Nat)
    (ev : Event) (hev : ev ∈ (sendNewTopLevel responses lastSent counts).1) :
    ∃ i, ∃ hi : i < responses.length,
      ev = Event.comment i (RenderCommentRecursive (responses.get ⟨i, hi⟩) 0) ∧
      ∀ rp ∈ (responses.get ⟨i, hi⟩).Replies,
        rp.Text ∈ textsIn (RenderCommentRecursive (responses.get ⟨i, hi⟩) 0) := by
  rw [sendNewTopLevel] at hev
  -- generalize over the dropped prefix
  suffices h : ∀ (pending : List SimulatedComment) (n : Nat) (cs : List Nat),
      pending = responses.drop n →
      ∀ e ∈ (sendNewTopLevelGo pending n cs).1,
      ∃ i, ∃ hi : i < responses.length,
        e = Event.comment i (RenderCommentRecursive (responses.get ⟨i, hi⟩) 0) by
    obtain ⟨i, hi, heq⟩ := h (responses.drop lastSent) lastSent counts rfl ev hev
    exact ⟨i, hi, heq, reply_text_mem_render _ 0⟩
  intro pending
  induction pending with
  | nil => intro n cs _ e he; rw [sendNewTopLevelGo] at he; cases he
  | cons c rest ih =>
    intro n cs hdrop e he
    rw [sendNewTopLevelGo] at he
    have hn : n < responses.length := by
      by_contra hge
      rw [List.drop_eq_nil_of_le (Nat.le_of_not_lt hge)] at hdrop
      cases hdrop
    have hc : c = responses.get ⟨n, hn⟩ := by
      have h0 := congrArg List.head? hdrop
      rw [List.head?_cons, List.head?_drop, List.getElem?_eq_getElem hn] at h0
      simpa [List.get_eq_getElem] using h0
    rcases List.mem_cons.mp he with h1 | h1
    · exact ⟨n, hn, by rw [h1, hc]⟩
    · refine ih (n + 1) (cs ++ [c.Replies.length]) ?_ e h1
      rw [← List.drop_drop, ← hdrop, List.drop_one, List.tail_cons]

/-- Witness for `comment_events_are_recursive_renders`: at the concrete
session of `snapC1`, the single emitted comment event is indeed the full
recursive rendering of `cC1`. -/
theorem comment_events_are_recursive_renders_witness :
    ∃ i, ∃ hi : i < ([cC1] : List SimulatedComment).length,
      Event.comment 0 (RenderCommentRecursive cC1 0) =
        Event.comment i (RenderCommentRecursive (([cC1] : List SimulatedComment).get ⟨i, hi⟩) 0) ∧
      ∀ rp ∈ (([cC1] : List SimulatedComment).get ⟨i, hi⟩).Replies,
        rp.Text ∈ textsIn (RenderCommentRecursive (([cC1] : List SimulatedComment).get ⟨i, hi⟩) 0) :=
  comment_events_are_recursive_renders [cC1] 0 [0]
    (Event.comment 0 (RenderCommentRecursive cC1 0))
    (by simp [sendNewTopLevel, sendNewTopLevelGo])

/-! ## Claim C7 -/

/-- Claim C7 (counterexample): a collaborator response whose decoded
stance list has fewer than 5 entries is accepted by `generateStances`
rather than treated as a failure - no quantity validation happens. -/
theorem stance_count_not_validated_cex :
    generateStances (ChatOutcome.arguments [stanceSupportive]) =
      Except.ok [stanceSupportive]
    ∧ ¬(5 ≤ ([stanceSupportive] : List Stance).length ∧
        ([stanceSupportive] : List Stance).length ≤ 8) := by
  exact ⟨rfl, by decide⟩

/-- Claim C7 (amended): `generateStances` validates the collaborator
response only structurally - a transport error, a missing function call
or an undecodable argument payload each yield an error, and any
successfully decoded stance list is returned exactly as parsed, with no
check of the 5-8 quantity policy (which is expressed only in the
prompt). -/
theorem stances_accepted_as_parsed (l : List Stance) (m : String) :
    generateStances (ChatOutcome.arguments l) = Except.ok l
    ∧ generateStances (ChatOutcome.apiError m) =
        Except.error ("failed to get response from OpenAI: " ++ m)
    ∧ generateStances ChatOutcome.noFunctionCall =
        Except.error "no function call in OpenAI response"
    ∧ generateStances (ChatOutcome.badArguments m) =
        Except.error ("failed to unmarshal function response: " ++ m) :=
  ⟨rfl, rfl, rfl, rfl⟩

/-! ## Claim C8 -/

/-- Claim C8: a `POST` submission whose form parses and whose prompt is
empty is rejected with the validation error and registers nothing, while
any non-empty prompt creates a session carrying that prompt, registers
it under the fresh identifier, and answers with a redirect naming the
identifier. -/
theorem start_handler_validation (prompt subreddit freshId : String)
    (store : List (String × RedditSession)) :
    (prompt = "" →
      startHandler "POST" true prompt subreddit freshId store =
        (StartOutcome.emptyPrompt, store))
    ∧ (prompt ≠ "" →
      ∃ s : RedditSession,
        startHandler "POST" true prompt subreddit freshId store =
          (StartOutcome.redirect ("/session?id=" ++ s.ID), (s.ID, s) :: store)
        ∧ s.ID = freshId ∧ s.Prompt = prompt ∧ s.Subreddit = subreddit) := by
  constructor
  · intro h
    simp [startHandler, h]
  · intro h
    refine ⟨{ ID := freshId, Prompt := prompt, Subreddit := subreddit }, ?_, rfl, rfl, rfl⟩
    simp [startHandler, NewSession, h]

/-- Witness for `start_handler_validation` at concrete inputs: the empty
prompt is rejected without touching the store, and a non-empty prompt
registers a session and returns its identifier. -/
theorem start_handler_validation_witness :
    (startHandler "POST" true "" "aita" "id1" [] = (StartOutcome.emptyPrompt, []))
    ∧ ∃ s : RedditSession,
        startHandler "POST" true "help" "aita" "id1" [] =
          (StartOutcome.redirect ("/session?id=" ++ s.ID), (s.ID, s) :: [])
        ∧ s.ID = "id1" ∧ s.Prompt = "help" ∧ s.Subreddit = "aita" :=
  ⟨(start_handler_validation "" "aita" "id1" []).1 rfl,
   (start_handler_validation "help" "aita" "id1" []).2 (by decide)⟩

/-! ## Claim C10 -/

/-- Claim C10 (code bug): it is NOT the case that every access of a
session's mutable fields holds `sessionsMutex`: the stance-failure path
writes `Error` (line 101) and `Done` (line 102) without the lock, the
comment-loop failure path writes `Error` (line 116) without the lock,
and the joining goroutine writes `Done` (line 160) without the lock,
while the `/ws` streamer reads the same fields under the lock. -/
theorem session_access_unsynchronized :
    (Access.mk .complete .write 160 false) ∈ sessionFieldAccesses
    ∧ (Access.mk .failure .write 101 false) ∈ sessionFieldAccesses
    ∧ ¬(∀ a ∈ sessionFieldAccesses, a.locked = true) := by
  refine ⟨by decide, by decide, ?_⟩
  intro h
  have := h ⟨.complete, .write, 160, false⟩ (by decide)
  cases this

end ShadowReddit

namespace ShadowReddit

/-- Closed form of the unsent-suffix loop. -/
theorem sendNewTopLevelGo_spec (pending : List SimulatedComment) (n : Nat)
    (counts : List Nat) :
    sendNewTopLevelGo pending n counts =
      ((List.enumFrom n pending).map
        (fun p => Event.comment p.1 (RenderCommentRecursive p.2 0)),
       n + pending.length,
       counts ++ pending.map (fun c => c.Replies.length)) := by
  induction pending generalizing n counts with
  | nil => simp [sendNewTopLevelGo]
  | cons c rest ih =>
    rw [sendNewTopLevelGo, ih]
    simp [List.enumFrom_cons]
    omega

/-- Closed form of `sendNewTopLevel`. -/
theorem sendNewTopLevel_spec (responses : List SimulatedComment) (lastSent : Nat)
    (counts : List Nat) :
    sendNewTopLevel responses lastSent counts =
      ((List.enumFrom lastSent (responses.drop lastSent)).map
        (fun p => Event.comment p.1 (RenderCommentRecursive p.2 0)),
       max lastSent responses.length,
       counts ++ (responses.drop lastSent).map (fun c => c.Replies.length)) := by
  rw [sendNewTopLevel, sendNewTopLevelGo_spec]
  have : lastSent + (responses.drop lastSent).length = max lastSent responses.length := by
    rw [List.length_drop]; omega
  rw [this]

end ShadowReddit

namespace ShadowReddit

theorem commentIndices_append (l1 l2 : List Event) :
    commentIndices (l1 ++ l2) = commentIndices l1 ++ commentIndices l2 :=
  List.filterMap_append _ _ _

theorem replyHtmlsFor_append (i : Nat) (l1 l2 : List Event) :
    replyHtmlsFor i (l1 ++ l2) = replyHtmlsFor i l1 ++ replyHtmlsFor i l2 :=
  List.filterMap_append _ _ _

/-- The comment indices of loop 1's events: the consecutive block
`[lastSent, responses.length)`. -/
theorem commentIndices_topLevel (responses : List SimulatedComment)
    (lastSent : Nat) (counts : List Nat) :
    commentIndices (sendNewTopLevel responses lastSent counts).1 =
      List.range' lastSent (responses.length - lastSent) := by
  rw [sendNewTopLevel_spec, commentIndices, List.filterMap_map]
  have hfun : ((fun e => match e with | Event.comment i _ => some i | _ => none) ∘
      (fun p : Nat × SimulatedComment => Event.comment p.1 (RenderCommentRecursive p.2 0))) =
      some ∘ Prod.fst := rfl
  rw [hfun, List.filterMap_eq_map, List.enumFrom_map_fst, List.length_drop]

/-- Loop 1 emits no reply events. -/
theorem replyHtmlsFor_topLevel (i : Nat) (responses : List SimulatedComment)
    (lastSent : Nat) (counts : List Nat) :
    replyHtmlsFor i (sendNewTopLevel responses lastSent counts).1 = [] := by
  rw [sendNewTopLevel_spec, replyHtmlsFor, List.filterMap_map]
  have hfun : ((fun e => match e with | Event.reply j h => if j = i then some h else none | _ => none) ∘
      (fun p : Nat × SimulatedComment => Event.comment p.1 (RenderCommentRecursive p.2 0))) =
      fun _ => (none : Option Node) := rfl
  rw [hfun]
  simp

/-- The `done` event carries no comment index and no reply payload. -/
theorem commentIndices_done : commentIndices [Event.done] = [] := rfl

theorem replyHtmlsFor_done (i : Nat) : replyHtmlsFor i [Event.done] = [] := rfl

end ShadowReddit

namespace ShadowReddit

/-- `List.getD` after `List.set` at the same (in-range) index. -/
theorem getD_set_self {l : List Nat} {n : Nat} (v : Nat) (h : n < l.length) :
    (l.set n v).getD n 0 = v := by
  rw [List.getD_eq_getElem?_getD, List.getElem?_set_self h, Option.getD_some]

/-- `List.getD` after `List.set` at a different index. -/
theorem getD_set_ne {l : List Nat} {n m : Nat} (v : Nat) (h : n ≠ m) :
    (l.set n v).getD m 0 = l.getD m 0 := by
  rw [List.getD_eq_getElem?_getD, List.getElem?_set_ne h, ← List.getD_eq_getElem?_getD]

/-- Complete characterization of loop 2 (`sendNewRepliesGo`) as seen by
one fixed parent index `i`: the produced reply payloads for `i` are the
renders of the reply range `[replyCounts[i], len(Replies))` of the
comment at `i`, the counts list keeps its length, and the count at `i`
is raised to the reply length when it was below it.  The hypothesis is
the Go index-safety invariant (`replyCounts` covers every index the loop
visits), which all call sites satisfy. -/
theorem sendNewRepliesGo_spec (remaining : List SimulatedComment) (start : Nat)
    (counts : List Nat) (hlen : start + remaining.length ≤ counts.length) (i : Nat) :
    (sendNewRepliesGo remaining start counts).2.length = counts.length
    ∧ replyHtmlsFor i (sendNewRepliesGo remaining start counts).1 =
        (if start ≤ i ∧ i - start < remaining.length then
          (List.range' (counts.getD i 0)
              ((remaining.getD (i - start) default).Replies.length - counts.getD i 0)).map
            (fun r =>
              RenderCommentRecursive
                ((remaining.getD (i - start) default).Replies.getD r default) 1)
        else [])
    ∧ (sendNewRepliesGo remaining start counts).2.getD i 0 =
        (if start ≤ i ∧ i - start < remaining.length then
          max (counts.getD i 0) (remaining.getD (i - start) default).Replies.length
        else counts.getD i 0) := by
  induction remaining generalizing start counts with
  | nil =>
    simp [sendNewRepliesGo, replyHtmlsFor]
  | cons c rest ih =>
    have hstart : start < counts.length := by
      simp only [List.length_cons] at hlen; omega
    have hlencons : (c :: rest).length = rest.length + 1 := rfl
    rw [sendNewRepliesGo]
    by_cases hlt : counts.getD start 0 < c.Replies.length
    · -- new replies at index `start`
      simp only [if_pos hlt]
      have hlen' : start + 1 + rest.length ≤ (counts.set start c.Replies.length).length := by
        rw [List.length_set]; simp only [List.length_cons] at hlen; omega
      have ihs := ih (start + 1) (counts.set start c.Replies.length) hlen'
      refine ⟨by rw [ihs.1, List.length_set], ?_, ?_⟩
      · -- reply payloads for i
        rw [replyHtmlsFor_append]
        have hhead : replyHtmlsFor i ((List.range' (counts.getD start 0)
            (c.Replies.length - counts.getD start 0)).map
              (fun r => Event.reply start
                (RenderCommentRecursive (c.Replies.getD r default) 1))) =
            if start = i then
              (List.range' (counts.getD start 0)
                (c.Replies.length - counts.getD start 0)).map
                (fun r => RenderCommentRecursive (c.Replies.getD r default) 1)
            else [] := by
          rw [replyHtmlsFor, List.filterMap_map]
          by_cases hsi : start = i
          · rw [if_pos hsi]
            have hfun : ((fun e => match e with
                | Event.reply j h => if j = i then some h else none
                | _ => none) ∘
                (fun r : Nat => Event.reply start
                  (RenderCommentRecursive (c.Replies.getD r default) 1))) =
                some ∘ (fun r : Nat =>
                  RenderCommentRecursive (c.Replies.getD r default) 1) := by
              funext r
              simp [Function.comp, hsi]
            rw [hfun, List.filterMap_eq_map]
          · rw [if_neg hsi]
            have hfun : ((fun e => match e with
                | Event.reply j h => if j = i then some h else none
                | _ => none) ∘
                (fun r : Nat => Event.reply start
                  (RenderCommentRecursive (c.Replies.getD r default) 1))) =
                fun _ : Nat => (none : Option Node) := by
              funext r
              simp [Function.comp, hsi]
            rw [hfun]
            simp
        rw [hhead, ihs.2.1]
        by_cases hsi : start = i
        · subst hsi
          rw [if_pos rfl,
            if_neg (by omega : ¬(start + 1 ≤ start ∧ start - (start + 1) < rest.length)),
            List.append_nil,
            if_pos (by rw [hlencons]; omega : start ≤ start ∧ start - start < (c :: rest).length),
            Nat.sub_self, List.getD_cons_zero]
        · rw [if_neg hsi, List.nil_append]
          rcases Nat.lt_or_ge i start with hio | hio
          · rw [if_neg (by omega : ¬(start + 1 ≤ i ∧ i - (start + 1) < rest.length)),
              if_neg (by omega : ¬(start ≤ i ∧ i - start < (c :: rest).length))]
          · have hgt : start < i := by omega
            have hsetne : (counts.set start c.Replies.length).getD i 0 = counts.getD i 0 :=
              getD_set_ne _ (by omega)
            have hgetd : (c :: rest).getD (i - start) default =
                rest.getD (i - (start + 1)) default := by
              rw [(by omega : i - start = (i - (start + 1)) + 1), List.getD_cons_succ]
            by_cases hin : i - (start + 1) < rest.length
            · rw [if_pos ⟨by omega, hin⟩,
                if_pos (by rw [hlencons]; omega : start ≤ i ∧ i - start < (c :: rest).length),
                hsetne, hgetd]
            · rw [if_neg (by omega : ¬(start + 1 ≤ i ∧ i - (start + 1) < rest.length)),
                if_neg (by rw [hlencons]; omega : ¬(start ≤ i ∧ i - start < (c :: rest).length))]
      · -- final count at i
        rw [ihs.2.2]
        by_cases hsi : start = i
        · subst hsi
          rw [if_neg (by omega : ¬(start + 1 ≤ start ∧ start - (start + 1) < rest.length)),
            if_pos (by rw [hlencons]; omega : start ≤ start ∧ start - start < (c :: rest).length),
            Nat.sub_self, List.getD_cons_zero, getD_set_self _ hstart]
          omega
        · have hsetne : (counts.set start c.Replies.length).getD i 0 = counts.getD i 0 :=
            getD_set_ne _ (by omega)
          rcases Nat.lt_or_ge i start with hio | hio
          · rw [if_neg (by omega : ¬(start + 1 ≤ i ∧ i - (start + 1) < rest.length)),
              if_neg (by omega : ¬(start ≤ i ∧ i - start < (c :: rest).length)), hsetne]
          · have hgt : start < i := by omega
            have hgetd : (c :: rest).getD (i - start) default =
                rest.getD (i - (start + 1)) default := by
              rw [(by omega : i - start = (i - (start + 1)) + 1), List.getD_cons_succ]
            by_cases hin : i - (start + 1) < rest.length
            · rw [if_pos ⟨by omega, hin⟩,
                if_pos (by rw [hlencons]; omega : start ≤ i ∧ i - start < (c :: rest).length),
                hsetne, hgetd]
            · rw [if_neg (by omega : ¬(start + 1 ≤ i ∧ i - (start + 1) < rest.length)),
                if_neg (by rw [hlencons]; omega : ¬(start ≤ i ∧ i - start < (c :: rest).length)),
                hsetne]
    · -- no new replies at index `start`
      simp only [if_neg hlt]
      have hlen' : start + 1 + rest.length ≤ counts.length := by
        simp only [List.length_cons] at hlen; omega
      have ihs := ih (start + 1) counts hlen'
      refine ⟨ihs.1, ?_, ?_⟩
      · rw [ihs.2.1]
        by_cases hsi : start = i
        · subst hsi
          rw [if_neg (by omega : ¬(start + 1 ≤ start ∧ start - (start + 1) < rest.length)),
            if_pos (by rw [hlencons]; omega : start ≤ start ∧ start - start < (c :: rest).length),
            Nat.sub_self, List.getD_cons_zero,
            (by omega : c.Replies.length - counts.getD start 0 = 0)]
          rfl
        · rcases Nat.lt_or_ge i start with hio | hio
          · rw [if_neg (by omega : ¬(start + 1 ≤ i ∧ i - (start + 1) < rest.length)),
              if_neg (by omega : ¬(start ≤ i ∧ i - start < (c :: rest).length))]
          · have hgt : start < i := by omega
            have hgetd : (c :: rest).getD (i - start) default =
                rest.getD (i - (start + 1)) default := by
              rw [(by omega : i - start = (i - (start + 1)) + 1), List.getD_cons_succ]
            by_cases hin : i - (start + 1) < rest.length
            · rw [if_pos ⟨by omega, hin⟩,
                if_pos (by rw [hlencons]; omega : start ≤ i ∧ i - start < (c :: rest).length),
                hgetd]
            · rw [if_neg (by omega : ¬(start + 1 ≤ i ∧ i - (start + 1) < rest.length)),
                if_neg (by rw [hlencons]; omega : ¬(start ≤ i ∧ i - start < (c :: rest).length))]
      · rw [ihs.2.2]
        by_cases hsi : start = i
        · subst hsi
          rw [if_neg (by omega : ¬(start + 1 ≤ start ∧ start - (start + 1) < rest.length)),
            if_pos (by rw [hlencons]; omega : start ≤ start ∧ start - start < (c :: rest).length),
            Nat.sub_self, List.getD_cons_zero]
          omega
        · rcases Nat.lt_or_ge i start with hio | hio
          · rw [if_neg (by omega : ¬(start + 1 ≤ i ∧ i - (start + 1) < rest.length)),
              if_neg (by omega : ¬(start ≤ i ∧ i - start < (c :: rest).length))]
          · have hgt : start < i := by omega
            have hgetd : (c :: rest).getD (i - start) default =
                rest.getD (i - (start + 1)) default := by
              rw [(by omega : i - start = (i - (start + 1)) + 1), List.getD_cons_succ]
            by_cases hin : i - (start + 1) < rest.length
            · rw [if_pos ⟨by omega, hin⟩,
                if_pos (by rw [hlencons]; omega : start ≤ i ∧ i - start < (c :: rest).length),
                hgetd]
            · rw [if_neg (by omega : ¬(start + 1 ≤ i ∧ i - (start + 1) < rest.length)),
                if_neg (by rw [hlencons]; omega : ¬(start ≤ i ∧ i - start < (c :: rest).length))]

end ShadowReddit

namespace ShadowReddit

/-- Appending to the counts list never lowers an entry (out-of-range
entries read as the default 0). -/
theorem getD_append_mono (l1 l2 : List Nat) (i : Nat) :
    l1.getD i 0 ≤ (l1 ++ l2).getD i 0 := by
  rcases Nat.lt_or_ge i l1.length with h | h
  · rw [List.getD_append _ _ _ _ h]
  · rw [List.getD_eq_default _ _ h]
    exact Nat.zero_le _

/-- Loop 2 emits only reply events, with indices inside the block it
walks. -/
theorem mem_sendNewRepliesGo (remaining : List SimulatedComment) (start : Nat)
    (counts : List Nat) :
    ∀ e ∈ (sendNewRepliesGo remaining start counts).1,
      ∃ i h, e = Event.reply i h ∧ start ≤ i ∧ i < start + remaining.length := by
  induction remaining generalizing start counts with
  | nil => intro e he; rw [sendNewRepliesGo] at he; cases he
  | cons c rest ih =>
    intro e he
    rw [sendNewRepliesGo] at he
    by_cases hlt : counts.getD start 0 < c.Replies.length
    · simp only [if_pos hlt, List.mem_append] at he
      rcases he with he | he
      · obtain ⟨r, _, hr⟩ := List.mem_map.mp he
        exact ⟨start, _, hr.symm, Nat.le_refl _, by simp only [List.length_cons]; omega⟩
      · obtain ⟨i, h, hei, hge, hlt2⟩ := ih (start + 1) _ e he
        exact ⟨i, h, hei, by omega, by simp only [List.length_cons]; omega⟩
    · simp only [if_neg hlt] at he
      obtain ⟨i, h, hei, hge, hlt2⟩ := ih (start + 1) _ e he
      exact ⟨i, h, hei, by omega, by simp only [List.length_cons]; omega⟩

/-- Loop 2 emits no comment events. -/
theorem commentIndices_sendNewRepliesGo (remaining : List SimulatedComment)
    (start : Nat) (counts : List Nat) :
    commentIndices (sendNewRepliesGo remaining start counts).1 = [] := by
  rw [commentIndices, List.filterMap_eq_nil_iff]
  intro e he
  obtain ⟨i, h, hei, _, _⟩ := mem_sendNewRepliesGo remaining start counts e he
  rw [hei]

/-- The comment indices emitted by a whole run form one consecutive
block starting at the observer's current `lastSentTopLevel`. -/
theorem commentIndices_streamRun (snaps : List Snapshot) (st : ObsState) :
    ∃ K, commentIndices (streamRun st snaps) = List.range' st.lastSentTopLevel K := by
  induction snaps generalizing st with
  | nil => exact ⟨0, rfl⟩
  | cons snap snaps ih =>
    rw [streamRun]
    have hone : commentIndices (streamIteration st snap).1 =
        List.range' st.lastSentTopLevel
          (snap.responses.length - st.lastSentTopLevel) := by
      rw [streamIteration]
      by_cases hd : snap.done
      · simp only [if_pos hd]
        rw [commentIndices_append, commentIndices_append,
          commentIndices_topLevel, sendNewReplies, commentIndices_sendNewRepliesGo,
          commentIndices_done, List.append_nil, List.append_nil]
      · simp only [if_neg hd]
        rw [commentIndices_append, commentIndices_topLevel, sendNewReplies,
          commentIndices_sendNewRepliesGo, List.append_nil]
    by_cases hd : (streamIteration st snap).2.2
    · rw [if_pos hd]
      exact ⟨_, hone⟩
    · rw [if_neg hd]
      obtain ⟨K', hK'⟩ := ih (streamIteration st snap).2.1
      have hlast : (streamIteration st snap).2.1.lastSentTopLevel =
          st.lastSentTopLevel + (snap.responses.length - st.lastSentTopLevel) := by
        rw [streamIteration]
        by_cases hd2 : snap.done <;>
          simp only [if_pos, if_neg, hd2, ite_true, ite_false] <;>
          · show (sendNewTopLevel snap.responses st.lastSentTopLevel st.replyCounts).2.1 = _
            rw [sendNewTopLevel_spec]
            show max st.lastSentTopLevel snap.responses.length = _
            omega
      refine ⟨K' + (snap.responses.length - st.lastSentTopLevel), ?_⟩
      rw [commentIndices_append, hone, hK', hlast]
      have := List.range'_append st.lastSentTopLevel
        (snap.responses.length - st.lastSentTopLevel) K' 1
      rw [Nat.one_mul] at this
      exact this

end ShadowReddit

namespace ShadowReddit

/-- Positional form of loop 1's output: position `q` holds the comment
event for top-level index `lastSent + q`. -/
theorem getElem_topLevel (responses : List SimulatedComment) (lastSent : Nat)
    (counts : List Nat) (q : Nat) :
    ((sendNewTopLevel responses lastSent counts).1)[q]? =
      responses[lastSent + q]?.map
        (fun c => Event.comment (lastSent + q) (RenderCommentRecursive c 0)) := by
  rw [sendNewTopLevel_spec]
  rw [List.getElem?_map, List.getElem?_enumFrom, List.getElem?_drop]
  cases responses[lastSent + q]? <;> rfl

/-- Length of loop 1's output. -/
theorem length_topLevel (responses : List SimulatedComment) (lastSent : Nat)
    (counts : List Nat) :
    ((sendNewTopLevel responses lastSent counts).1).length =
      responses.length - lastSent := by
  rw [sendNewTopLevel_spec]
  rw [List.length_map, List.enumFrom_length, List.length_drop]

/-- One iteration's events, decomposed into the two loops and the
conditional terminal event. -/
theorem streamIteration_events (st : ObsState) (snap : Snapshot) :
    (streamIteration st snap).1 =
      (sendNewTopLevel snap.responses st.lastSentTopLevel st.replyCounts).1 ++
      ((sendNewReplies snap.responses
          (sendNewTopLevel snap.responses st.lastSentTopLevel st.replyCounts).2.2).1 ++
        (if snap.done then [Event.done] else [])) := by
  rw [streamIteration]
  by_cases hd : snap.done <;> simp [hd]

/-- One iteration's updated observer state. -/
theorem streamIteration_state (st : ObsState) (snap : Snapshot) :
    (streamIteration st snap).2.1 =
      ⟨max st.lastSentTopLevel snap.responses.length,
       (sendNewReplies snap.responses
          (sendNewTopLevel snap.responses st.lastSentTopLevel st.replyCounts).2.2).2⟩ := by
  rw [streamIteration]
  by_cases hd : snap.done <;> simp [hd, sendNewTopLevel_spec]

/-- One iteration stops the loop exactly when the snapshot was done. -/
theorem streamIteration_stop (st : ObsState) (snap : Snapshot) :
    (streamIteration st snap).2.2 = snap.done := by
  rw [streamIteration]
  by_cases hd : snap.done <;> simp [hd]

/-- An iteration's event list contains, at position `i - lastSent`, the
comment event for any index `i` the iteration newly covers. -/
theorem iteration_comment_at (st : ObsState) (snap : Snapshot) (i : Nat)
    (hge : st.lastSentTopLevel ≤ i) (hlt : i < snap.responses.length) :
    (i - st.lastSentTopLevel < (streamIteration st snap).1.length)
    ∧ ∃ h2, (streamIteration st snap).1[i - st.lastSentTopLevel]? =
        some (Event.comment i h2) := by
  have hqlt : i - st.lastSentTopLevel <
      ((sendNewTopLevel snap.responses st.lastSentTopLevel st.replyCounts).1).length := by
    rw [length_topLevel]; omega
  have hidx : st.lastSentTopLevel + (i - st.lastSentTopLevel) = i := by omega
  have ht1 : ((sendNewTopLevel snap.responses st.lastSentTopLevel st.replyCounts).1)[i - st.lastSentTopLevel]? =
      some (Event.comment i
        (RenderCommentRecursive (snap.responses.getD i default) 0)) := by
    rw [getElem_topLevel, hidx, List.getElem?_eq_getElem hlt,
      List.getD_eq_getElem _ _ hlt]
    rfl
  rw [streamIteration_events]
  constructor
  · rw [List.length_append]; omega
  · exact ⟨_, by rw [List.getElem?_append_left hqlt, ht1]⟩

/-- Within one iteration's event list, every reply event names a parent
index below the snapshot's response count. -/
theorem iteration_reply_index_lt (st : ObsState) (snap : Snapshot)
    (i : Nat) (h : Node)
    (hmem : Event.reply i h ∈ (streamIteration st snap).1) :
    i < snap.responses.length := by
  rw [streamIteration_events] at hmem
  rcases List.mem_append.mp hmem with hmem2 | hmem2
  · exfalso
    rw [sendNewTopLevel_spec] at hmem2
    obtain ⟨pr, _, hpr⟩ := List.mem_map.mp hmem2
    cases hpr
  · rcases List.mem_append.mp hmem2 with hmem3 | hmem3
    · rw [sendNewReplies] at hmem3
      obtain ⟨j, h2, hej, _, hjlt⟩ := mem_sendNewRepliesGo _ _ _ _ hmem3
      cases hej
      omega
    · by_cases hd : snap.done <;> simp [hd] at hmem3

/-- Within one iteration's event list, every reply event is preceded by
a comment event for its parent index, unless that index was already
covered before this iteration. -/
theorem iteration_reply_preceded (st : ObsState) (snap : Snapshot)
    (p i : Nat) (h : Node)
    (hp : (streamIteration st snap).1[p]? = some (Event.reply i h)) :
    i < st.lastSentTopLevel ∨
      ∃ q, q < p ∧ ∃ h2,
        (streamIteration st snap).1[q]? = some (Event.comment i h2) := by
  have hi : i < snap.responses.length :=
    iteration_reply_index_lt st snap i h (List.getElem?_mem hp)
  rcases Nat.lt_or_ge i st.lastSentTopLevel with hcase | hcase
  · exact Or.inl hcase
  · right
    obtain ⟨hqlt, h2, hq2⟩ := iteration_comment_at st snap i hcase hi
    refine ⟨i - st.lastSentTopLevel, ?_, h2, hq2⟩
    -- p cannot be inside loop 1's block, whose events are all comments
    have hplen : ((sendNewTopLevel snap.responses st.lastSentTopLevel st.replyCounts).1).length ≤ p := by
      by_contra hplt
      push_neg at hplt
      rw [streamIteration_events, List.getElem?_append_left hplt,
        getElem_topLevel] at hp
      cases hr : snap.responses[st.lastSentTopLevel + p]? <;> rw [hr] at hp
      · cases hp
      · cases hp
    rw [length_topLevel] at hplen
    omega

end ShadowReddit

namespace ShadowReddit

/-- Across a whole run, every reply event is preceded in the stream by
the comment event for its parent index, unless that index predates the
observer's current counter. -/
theorem reply_preceded_streamRun (snaps : List Snapshot) (st : ObsState) :
    ∀ (p i : Nat) (h : Node), (streamRun st snaps)[p]? = some (Event.reply i h) →
      i < st.lastSentTopLevel ∨
      ∃ q, q < p ∧ ∃ h2, (streamRun st snaps)[q]? = some (Event.comment i h2) := by
  induction snaps generalizing st with
  | nil =>
    intro p i h hp
    rw [streamRun] at hp
    cases hp
  | cons snap snaps ih =>
    intro p i h hp
    rw [streamRun] at hp ⊢
    by_cases hstop : (streamIteration st snap).2.2
    · rw [if_pos hstop] at hp ⊢
      exact iteration_reply_preceded st snap p i h hp
    · rw [if_neg hstop] at hp ⊢
      rcases Nat.lt_or_ge p (streamIteration st snap).1.length with hlt | hge
      · rw [List.getElem?_append_left hlt] at hp
        rcases iteration_reply_preceded st snap p i h hp with hl | ⟨q, hq, h2, hq2⟩
        · exact Or.inl hl
        · have hqlt : q < (streamIteration st snap).1.length := by omega
          exact Or.inr ⟨q, hq, h2, by rw [List.getElem?_append_left hqlt]; exact hq2⟩
      · rw [List.getElem?_append_right hge] at hp
        rcases ih (streamIteration st snap).2.1 (p - (streamIteration st snap).1.length) i h hp
          with hl | ⟨q', hq', h2, hq2⟩
        · -- `i` was covered by the end of this iteration
          rw [streamIteration_state] at hl
          simp only at hl
          rcases Nat.lt_or_ge i st.lastSentTopLevel with hc | hc
          · exact Or.inl hc
          · have hi : i < snap.responses.length := by omega
            obtain ⟨hqlt, h2, hq2⟩ := iteration_comment_at st snap i hc hi
            refine Or.inr ⟨i - st.lastSentTopLevel, by omega, h2, ?_⟩
            rw [List.getElem?_append_left hqlt]
            exact hq2
        · refine Or.inr ⟨(streamIteration st snap).1.length + q', by omega, h2, ?_⟩
          rw [List.getElem?_append_right (by omega), Nat.add_sub_cancel_left]
          exact hq2

end ShadowReddit

namespace ShadowReddit

/-- The reply payloads `[done]` (or `[]`) contributes: none. -/
theorem replyHtmlsFor_ite_done (i : Nat) (b : Bool) :
    replyHtmlsFor i (if b = true then [Event.done] else []) = [] := by
  cases b <;> rfl

/-- Full characterization of one iteration for a fixed parent index `i`,
under the observer invariant `lastSentTopLevel ≤ replyCounts.length`:
the invariant is preserved, the count at `i` never decreases, the
iteration's reply payloads for `i` are the renders of the contiguous
range from the (post-loop-1) count to the snapshot's reply count, and
the new count is the max of the two. -/
theorem iteration_replyHtmls (st : ObsState) (snap : Snapshot)
    (hinv : st.lastSentTopLevel ≤ st.replyCounts.length) (i : Nat) :
    (streamIteration st snap).2.1.lastSentTopLevel ≤
        (streamIteration st snap).2.1.replyCounts.length
    ∧ st.replyCounts.getD i 0 ≤
        (sendNewTopLevel snap.responses st.lastSentTopLevel st.replyCounts).2.2.getD i 0
    ∧ replyHtmlsFor i (streamIteration st snap).1 =
        (if i < snap.responses.length then
          (List.range'
              ((sendNewTopLevel snap.responses st.lastSentTopLevel st.replyCounts).2.2.getD i 0)
              ((snap.responses.getD i default).Replies.length -
                (sendNewTopLevel snap.responses st.lastSentTopLevel st.replyCounts).2.2.getD i 0)).map
            (fun r => RenderCommentRecursive
              ((snap.responses.getD i default).Replies.getD r default) 1)
        else [])
    ∧ (streamIteration st snap).2.1.replyCounts.getD i 0 =
        (if i < snap.responses.length then
          max ((sendNewTopLevel snap.responses st.lastSentTopLevel st.replyCounts).2.2.getD i 0)
            (snap.responses.getD i default).Replies.length
        else (sendNewTopLevel snap.responses st.lastSentTopLevel st.replyCounts).2.2.getD i 0) := by
  have hc1 : (sendNewTopLevel snap.responses st.lastSentTopLevel st.replyCounts).2.2 =
      st.replyCounts ++ (snap.responses.drop st.lastSentTopLevel).map
        (fun c => c.Replies.length) := by
    rw [sendNewTopLevel_spec]
  have hlen1 : snap.responses.length ≤
      (sendNewTopLevel snap.responses st.lastSentTopLevel st.replyCounts).2.2.length := by
    rw [hc1, List.length_append, List.length_map, List.length_drop]
    omega
  have hgo := sendNewRepliesGo_spec snap.responses 0
    (sendNewTopLevel snap.responses st.lastSentTopLevel st.replyCounts).2.2
    (by omega) i
  have hcond : (0 ≤ i ∧ i - 0 < snap.responses.length) ↔ i < snap.responses.length := by
    omega
  have hc1len : (sendNewTopLevel snap.responses st.lastSentTopLevel st.replyCounts).2.2.length =
      st.replyCounts.length + (snap.responses.length - st.lastSentTopLevel) := by
    rw [hc1, List.length_append, List.length_map, List.length_drop]
  refine ⟨?_, ?_, ?_, ?_⟩
  · rw [streamIteration_state]
    show max st.lastSentTopLevel snap.responses.length ≤ (sendNewReplies snap.responses
        (sendNewTopLevel snap.responses st.lastSentTopLevel st.replyCounts).2.2).2.length
    rw [sendNewReplies]
    have h1 := hgo.1
    omega
  · rw [hc1]
    exact getD_append_mono _ _ _
  · rw [streamIteration_events, replyHtmlsFor_append, replyHtmlsFor_append,
      replyHtmlsFor_topLevel, replyHtmlsFor_ite_done, List.append_nil,
      List.nil_append, sendNewReplies, hgo.2.1]
    by_cases hi : i < snap.responses.length
    · rw [if_pos (by omega : 0 ≤ i ∧ i - 0 < snap.responses.length), if_pos hi]
      rw [(by omega : i - 0 = i)]
    · rw [if_neg (by omega : ¬(0 ≤ i ∧ i - 0 < snap.responses.length)), if_neg hi]
  · rw [streamIteration_state]
    show (sendNewReplies snap.responses
        (sendNewTopLevel snap.responses st.lastSentTopLevel st.replyCounts).2.2).2.getD i 0 = _
    rw [sendNewReplies, hgo.2.2]
    by_cases hi : i < snap.responses.length
    · rw [if_pos (by omega : 0 ≤ i ∧ i - 0 < snap.responses.length), if_pos hi,
        (by omega : i - 0 = i)]
    · rw [if_neg (by omega : ¬(0 ≤ i ∧ i - 0 < snap.responses.length)), if_neg hi]

end ShadowReddit

namespace ShadowReddit

/-- Across a whole run against snapshots that are all prefixes of a
final session state `F`, the reply payloads the observer receives for a
given parent index `i` are the renders of a strictly increasing list of
positions into `F`'s reply sequence at `i`: reply events respect append
order. -/
theorem replyHtmls_streamRun (snaps : List Snapshot) (F : Snapshot)
    (hmono : ∀ s ∈ snaps, snapLE s F) (st : ObsState)
    (hinv : st.lastSentTopLevel ≤ st.replyCounts.length) (i : Nat) :
    ∃ rs : List Nat, List.Pairwise (· < ·) rs ∧
      (∀ r ∈ rs, st.replyCounts.getD i 0 ≤ r) ∧
      replyHtmlsFor i (streamRun st snaps) =
        rs.map (fun r => RenderCommentRecursive
          ((F.responses.getD i default).Replies.getD r default) 1) := by
  induction snaps generalizing st with
  | nil =>
    exact ⟨[], List.Pairwise.nil, ⟨fun r hr => absurd hr (List.not_mem_nil r), rfl⟩⟩
  | cons snap snaps ih =>
    have hmonoh : snapLE snap F := hmono snap (List.mem_cons_self _ _)
    have hmonot : ∀ s ∈ snaps, snapLE s F :=
      fun s hs => hmono s (List.mem_cons_of_mem _ hs)
    obtain ⟨hinv', hmono1, hhtml, hcount⟩ := iteration_replyHtmls st snap hinv i
    -- the iteration's contribution, rewritten through `F`
    have hbatch : replyHtmlsFor i (streamIteration st snap).1 =
        (if i < snap.responses.length then
          (List.range'
              ((sendNewTopLevel snap.responses st.lastSentTopLevel st.replyCounts).2.2.getD i 0)
              ((snap.responses.getD i default).Replies.length -
                (sendNewTopLevel snap.responses st.lastSentTopLevel st.replyCounts).2.2.getD i 0)).map
            (fun r => RenderCommentRecursive
              ((F.responses.getD i default).Replies.getD r default) 1)
        else []) := by
      rw [hhtml]
      by_cases hi : i < snap.responses.length
      · rw [if_pos hi, if_pos hi]
        refine List.map_congr_left ?_
        intro r hr
        have hrlt : r < (snap.responses.getD i default).Replies.length := by
          have := List.mem_range'_1.mp hr
          omega
        have hi2 : i < F.responses.length := Nat.lt_of_lt_of_le hi hmonoh.1
        obtain ⟨-, -, -, t, hpre⟩ := hmonoh.2 i hi hi2
        have hsnap : snap.responses.getD i default = snap.responses.get ⟨i, hi⟩ := by
          rw [List.getD_eq_getElem _ _ hi]; rfl
        have hF : F.responses.getD i default = F.responses.get ⟨i, hi2⟩ := by
          rw [List.getD_eq_getElem _ _ hi2]; rfl
        rw [hsnap, hF, ← hpre, List.getD_append]
        rw [hsnap] at hrlt
        exact hrlt
      · rw [if_neg hi, if_neg hi]
    rw [streamRun]
    by_cases hstop : (streamIteration st snap).2.2
    · rw [if_pos hstop]
      by_cases hi : i < snap.responses.length
      · rw [if_pos hi] at hbatch
        refine ⟨_, List.pairwise_lt_range' _ _, ?_, hbatch⟩
        intro r hr
        have := List.mem_range'_1.mp hr
        omega
      · rw [if_neg hi] at hbatch
        exact ⟨[], List.Pairwise.nil, ⟨fun r hr => absurd hr (List.not_mem_nil r), hbatch⟩⟩
    · rw [if_neg hstop]
      obtain ⟨rs', hpair', hbound', hrs'⟩ := ih hmonot (streamIteration st snap).2.1 hinv'
      rw [replyHtmlsFor_append, hbatch, hrs']
      by_cases hi : i < snap.responses.length
      · rw [if_pos hi]
        rw [if_pos hi] at hcount
        refine ⟨List.range'
            ((sendNewTopLevel snap.responses st.lastSentTopLevel st.replyCounts).2.2.getD i 0)
            ((snap.responses.getD i default).Replies.length -
              (sendNewTopLevel snap.responses st.lastSentTopLevel st.replyCounts).2.2.getD i 0)
            ++ rs', ?_, ?_, ?_⟩
        · rw [List.pairwise_append]
          refine ⟨List.pairwise_lt_range' _ _, hpair', ?_⟩
          intro a ha b hb
          have ha2 := List.mem_range'_1.mp ha
          have hb2 := hbound' b hb
          rw [hcount] at hb2
          omega
        · intro r hr
          rcases List.mem_append.mp hr with hr2 | hr2
          · have := List.mem_range'_1.mp hr2
            omega
          · have := hbound' r hr2
            rw [hcount] at this
            omega
        · rw [List.map_append]
      · rw [if_neg hi]
        rw [if_neg hi] at hcount
        refine ⟨rs', hpair', ?_, by rw [List.nil_append]⟩
        intro r hr
        have := hbound' r hr
        rw [hcount] at this
        omega

end ShadowReddit

namespace ShadowReddit

/-- `snapLE` is reflexive. -/
theorem snapLE_refl (s : Snapshot) : snapLE s s :=
  ⟨Nat.le_refl _, fun _ _ _ => ⟨rfl, rfl, rfl, [], List.append_nil _⟩⟩

/-- Claim C3: within one observer's stream - for any attach point and
any sequence of polled snapshots that are all prefix-states of a final
session state `F` - (1) the `comment` events' parent indices are
exactly `0, 1, 2, ...` in order with no gaps or repeats, (2) a `reply`
event for index `i` is never emitted before the `comment` event for
`i`, and (3) the reply payloads for each index are renders of a
strictly increasing list of positions into that comment's reply
sequence, i.e. replies are emitted in append order. -/
theorem streamer_event_ordering (s0 : Snapshot) (snaps : List Snapshot)
    (F : Snapshot) (hmono : ∀ s ∈ snaps, snapLE s F) :
    (commentIndices (streamRun (attachState s0) snaps) =
      List.range (commentIndices (streamRun (attachState s0) snaps)).length)
    ∧ (∀ (p i : Nat) (h : Node),
        (streamRun (attachState s0) snaps)[p]? = some (Event.reply i h) →
        ∃ q, q < p ∧ ∃ h2,
          (streamRun (attachState s0) snaps)[q]? = some (Event.comment i h2))
    ∧ (∀ i, ∃ rs : List Nat, List.Pairwise (· < ·) rs ∧
        replyHtmlsFor i (streamRun (attachState s0) snaps) =
          rs.map (fun r => RenderCommentRecursive
            ((F.responses.getD i default).Replies.getD r default) 1)) := by
  refine ⟨?_, ?_, ?_⟩
  · obtain ⟨K, hK⟩ := commentIndices_streamRun snaps (attachState s0)
    have h0 : (attachState s0).lastSentTopLevel = 0 := rfl
    rw [h0] at hK
    rw [hK, List.length_range', ← List.range_eq_range']
  · intro p i h hp
    rcases reply_preceded_streamRun snaps (attachState s0) p i h hp with hl | hr
    · exact absurd hl (by simp [attachState])
    · exact hr
  · intro i
    obtain ⟨rs, hpair, _, heq⟩ :=
      replyHtmls_streamRun snaps F hmono (attachState s0)
        (by simp [attachState]) i
    exact ⟨rs, hpair, heq⟩

/-- Witness for `streamer_event_ordering` at the concrete one-comment
session `snapC1`. -/
theorem streamer_event_ordering_witness :
    (∀ s ∈ [snapC1], snapLE s snapC1)
    ∧ ((commentIndices (streamRun (attachState snapC1) [snapC1]) =
        List.range (commentIndices (streamRun (attachState snapC1) [snapC1])).length)
      ∧ (∀ (p i : Nat) (h : Node),
          (streamRun (attachState snapC1) [snapC1])[p]? = some (Event.reply i h) →
          ∃ q, q < p ∧ ∃ h2,
            (streamRun (attachState snapC1) [snapC1])[q]? = some (Event.comment i h2))
      ∧ (∀ i, ∃ rs : List Nat, List.Pairwise (· < ·) rs ∧
          replyHtmlsFor i (streamRun (attachState snapC1) [snapC1]) =
            rs.map (fun r => RenderCommentRecursive
              ((snapC1.responses.getD i default).Replies.getD r default) 1))) :=
  ⟨fun s hs => by
      rw [List.mem_singleton] at hs
      rw [hs]
      exact snapLE_refl snapC1,
   streamer_event_ordering snapC1 [snapC1] snapC1
     (fun s hs => by
       rw [List.mem_singleton] at hs
       rw [hs]
       exact snapLE_refl snapC1)⟩

end ShadowReddit

namespace ShadowReddit

/-! ## Orchestrator machinery -/

/-- Running a concatenated schedule. -/
theorem runSched_append (cfg : OrchConfig) (s1 s2 : List SchedChoice) :
    runSched cfg (s1 ++ s2) = runSched (runSched cfg s1) s2 := by
  induction s1 generalizing cfg with
  | nil => rfl
  | cons ch rest ih => rw [List.cons_append, runSched, runSched, ih]

/-- Any property preserved by every scheduler step holds at the end of
every schedule. -/
theorem runSched_inv (P : OrchConfig → Prop)
    (hstep : ∀ cfg ch, P cfg → P (stepChoice cfg ch)) :
    ∀ (sched : List SchedChoice) (cfg : OrchConfig), P cfg → P (runSched cfg sched) := by
  intro sched
  induction sched with
  | nil => intro cfg h; exact h
  | cons ch rest ih =>
    intro cfg h
    rw [runSched]
    exact ih _ (hstep cfg ch h)

/-- Position `p` of the trace is the run of the first `p` choices. -/
theorem runTrace_getElem (cfg : OrchConfig) (sched : List SchedChoice) (p : Nat)
    (hp : p ≤ sched.length) :
    (runTrace cfg sched)[p]? = some (runSched cfg (sched.take p)) := by
  induction sched generalizing cfg p with
  | nil =>
    have : p = 0 := Nat.le_zero.mp hp
    subst this
    rfl
  | cons ch rest ih =>
    cases p with
    | zero =>
      rw [runTrace, List.getElem?_cons_zero, List.take_zero, runSched]
    | succ p' =>
      rw [runTrace, List.getElem?_cons_succ,
        ih (stepChoice cfg ch) p' (by simpa using hp),
        List.take_succ_cons, runSched]

/-- The trace never holds entries beyond the schedule length. -/
theorem runTrace_getElem_none (cfg : OrchConfig) (sched : List SchedChoice) (p : Nat)
    (hp : sched.length < p) :
    (runTrace cfg sched)[p]? = none := by
  induction sched generalizing cfg p with
  | nil =>
    match p, hp with
    | p + 1, _ => rfl
  | cons ch rest ih =>
    match p, hp with
    | p' + 1, hp =>
      rw [runTrace, List.getElem?_cons_succ]
      exact ih _ _ (by simpa using hp)

/-- No scheduler step ever resets `Done` to false. -/
theorem done_monotone_step (cfg : OrchConfig) (ch : SchedChoice)
    (h : cfg.sess.Done = true) : (stepChoice cfg ch).sess.Done = true := by
  have happly : ∀ (st : SessionState) (a : OrchAction),
      st.Done = true → (applyAction st a).Done = true := by
    intro st a hst
    cases a <;> simp [applyAction, hst]
  cases ch with
  | mainStep =>
    rw [stepChoice]
    cases hm : cfg.mainRem with
    | nil => exact h
    | cons a rest =>
      cases a <;> simp only [] <;> first
        | exact h
        | exact happly _ _ h
  | unitStep u =>
    rw [stepChoice]
    cases hu : cfg.unitsRem.get? u with
    | none => exact h
    | some acts =>
      cases acts with
      | nil => exact h
      | cons a rest => exact happly _ _ h
  | joinStep =>
    rw [stepChoice]
    by_cases hg : (cfg.mainRem.isEmpty && cfg.unitsRem.all List.isEmpty) = true
    · rw [if_pos hg]
    · rw [if_neg hg]; exact h

/-- An action of a spawned reply goroutine (only ever a reply append). -/
def isAppendReply : OrchAction → Prop := fun a => ∃ i c, a = OrchAction.appendReply i c

/-- The actions of a reply goroutine only append replies. -/
theorem replyUnitActions_appendReply (c : Collab) (k : Nat) :
    ∀ a ∈ replyUnitActions c k, isAppendReply a := by
  intro a ha
  rw [replyUnitActions] at ha
  cases hr : c.replyResult k with
  | error e => rw [hr] at ha; cases ha
  | ok t =>
    rw [hr] at ha
    rcases List.mem_singleton.mp ha with rfl
    exact ⟨k, _, rfl⟩

/-- A reply append never touches `Done`, `Error`, `SelectedStances`, or
the number of top-level comments. -/
theorem applyAppendReply_frame (st : SessionState) (i : Nat)
    (child : SimulatedComment) :
    (applyAction st (OrchAction.appendReply i child)).Done = st.Done
    ∧ (applyAction st (OrchAction.appendReply i child)).Error = st.Error
    ∧ (applyAction st (OrchAction.appendReply i child)).SelectedStances = st.SelectedStances
    ∧ (applyAction st (OrchAction.appendReply i child)).Responses.length =
        st.Responses.length := by
  refine ⟨rfl, rfl, rfl, ?_⟩
  show (appendReplyAt st.Responses i child).length = _
  rw [appendReplyAt]
  cases h : st.Responses.get? i with
  | none => rfl
  | some c0 => exact List.length_set _ _ _

/-- The comment loop never performs `markDone`. -/
theorem markDone_not_mem_commentLoop (c : Collab) :
    ∀ (stances : List Stance) (k : Nat),
      OrchAction.markDone ∉ commentLoopActions c stances k := by
  intro stances
  induction stances with
  | nil => intro k h; cases h
  | cons stance rest ih =>
    intro k h
    rw [commentLoopActions] at h
    cases hr : c.commentResult k with
    | error e =>
      rw [hr] at h
      rcases List.mem_singleton.mp h with h2
      cases h2
    | ok t =>
      rw [hr] at h
      rcases List.mem_cons.mp h with h2 | h2
      · cases h2
      rcases List.mem_cons.mp h2 with h3 | h3
      · cases h3
      · exact ih (k + 1) h3

/-- Every goroutine the comment loop spawns carries exactly the reply
goroutine's actions for its parent index. -/
theorem spawn_mem_commentLoop (c : Collab) :
    ∀ (stances : List Stance) (k : Nat) (pi2 : Nat) (acts : List OrchAction),
      OrchAction.spawnReply pi2 acts ∈ commentLoopActions c stances k →
      acts = replyUnitActions c pi2 := by
  intro stances
  induction stances with
  | nil => intro k pi2 acts h; cases h
  | cons stance rest ih =>
    intro k pi2 acts h
    rw [commentLoopActions] at h
    cases hr : c.commentResult k with
    | error e =>
      rw [hr] at h
      rcases List.mem_singleton.mp h with h2
      cases h2
    | ok t =>
      rw [hr] at h
      rcases List.mem_cons.mp h with h2 | h2
      · cases h2
      rcases List.mem_cons.mp h2 with h3 | h3
      · cases h3
        rfl
      · exact ih (k + 1) pi2 acts h3

end ShadowReddit

namespace ShadowReddit

/-- The inductive invariant behind claim C6: whenever `Done` is set, the
main loop has ended and every spawned reply goroutine has finished;
reply goroutines only append replies; `markDone` appears in the main
queue only as the final action of the stance-failure path, before any
goroutine was spawned. -/
def C6Inv (cfg : OrchConfig) : Prop :=
  (cfg.sess.Done = true → cfg.mainRem = [] ∧ ∀ u ∈ cfg.unitsRem, u = [])
  ∧ (∀ u ∈ cfg.unitsRem, ∀ a ∈ u, isAppendReply a)
  ∧ (∀ (pi2 : Nat) (acts : List OrchAction),
      OrchAction.spawnReply pi2 acts ∈ cfg.mainRem → ∀ a ∈ acts, isAppendReply a)
  ∧ (OrchAction.markDone ∈ cfg.mainRem →
      ((∃ e, cfg.mainRem = [OrchAction.setError e, OrchAction.markDone]) ∨
        cfg.mainRem = [OrchAction.markDone])
      ∧ cfg.unitsRem = [])

/-- `C6Inv` is preserved by every scheduler step. -/
theorem C6Inv_step (cfg : OrchConfig) (ch : SchedChoice) (h : C6Inv cfg) :
    C6Inv (stepChoice cfg ch) := by
  obtain ⟨h1, h2, h3, h4⟩ := h
  cases ch with
  | mainStep =>
    rw [stepChoice]
    cases hm : cfg.mainRem with
    | nil => exact ⟨h1, h2, h3, fun hmd => h4 hmd⟩
    | cons a rest =>
      have hrest3 : ∀ (pi2 : Nat) (acts : List OrchAction),
          OrchAction.spawnReply pi2 acts ∈ rest → ∀ x ∈ acts, isAppendReply x :=
        fun pi2 acts hmem => h3 pi2 acts (hm ▸ List.mem_cons_of_mem _ hmem)
      have hrest4 : OrchAction.markDone ∈ rest →
          ((∃ e, rest = [OrchAction.setError e, OrchAction.markDone]) ∨
            rest = [OrchAction.markDone])
          ∧ cfg.unitsRem = [] := by
        intro hmd
        have hmd0 : OrchAction.markDone ∈ cfg.mainRem :=
          hm ▸ List.mem_cons_of_mem _ hmd
        refine ⟨?_, (h4 hmd0).2⟩
        rcases (h4 hmd0).1 with ⟨e, he⟩ | he
        · rw [hm] at he
          cases he
          exact Or.inr rfl
        · rw [hm] at he
          cases he
          cases hmd
      have hDoneFalse : cfg.sess.Done = false := by
        by_contra hdt
        have hdt2 : cfg.sess.Done = true := by
          cases hdx : cfg.sess.Done
          · exact absurd hdx hdt
          · rfl
        have := (h1 hdt2).1
        rw [hm] at this
        cases this
      cases a with
      | setStances l =>
        refine ⟨?_, h2, hrest3, fun hmd => hrest4 hmd⟩
        intro hd
        rw [show (applyAction cfg.sess (OrchAction.setStances l)).Done = cfg.sess.Done
          from rfl, hDoneFalse] at hd
        cases hd
      | setError e =>
        refine ⟨?_, h2, hrest3, fun hmd => hrest4 hmd⟩
        intro hd
        rw [show (applyAction cfg.sess (OrchAction.setError e)).Done = cfg.sess.Done
          from rfl, hDoneFalse] at hd
        cases hd
      | markDone =>
        have hmd0 : OrchAction.markDone ∈ cfg.mainRem := hm ▸ List.mem_cons_self _ _
        have hshape := h4 hmd0
        have hrestnil : rest = [] := by
          rcases hshape.1 with ⟨e, he⟩ | he
          · rw [hm] at he; cases he
          · rw [hm] at he; cases he; rfl
        subst hrestnil
        refine ⟨fun _ => ⟨rfl, ?_⟩, h2, hrest3, fun hmd => hrest4 hmd⟩
        rw [hshape.2]
        intro u hu
        cases hu
      | appendComment c0 =>
        refine ⟨?_, h2, hrest3, fun hmd => hrest4 hmd⟩
        intro hd
        rw [show (applyAction cfg.sess (OrchAction.appendComment c0)).Done = cfg.sess.Done
          from rfl, hDoneFalse] at hd
        cases hd
      | appendReply i child =>
        refine ⟨?_, h2, hrest3, fun hmd => hrest4 hmd⟩
        intro hd
        rw [show (applyAction cfg.sess (OrchAction.appendReply i child)).Done = cfg.sess.Done
          from rfl, hDoneFalse] at hd
        cases hd
      | spawnReply pi2 acts =>
        refine ⟨?_, ?_, hrest3, ?_⟩
        · intro hd
          rw [hDoneFalse] at hd
          cases hd
        · intro u hu
          rcases List.mem_append.mp hu with hu2 | hu2
          · exact h2 u hu2
          · rcases List.mem_singleton.mp hu2 with rfl
            exact h3 pi2 u (hm ▸ List.mem_cons_self _ _)
        · intro hmd
          exfalso
          have hmd0 : OrchAction.markDone ∈ cfg.mainRem :=
            hm ▸ List.mem_cons_of_mem _ hmd
          rcases (h4 hmd0).1 with ⟨e, he⟩ | he
          · rw [hm] at he; cases he
          · rw [hm] at he; cases he
  | unitStep u =>
    rw [stepChoice]
    cases hu : cfg.unitsRem.get? u with
    | none => exact ⟨h1, h2, h3, h4⟩
    | some acts =>
      cases acts with
      | nil => exact ⟨h1, h2, h3, h4⟩
      | cons a rest2 =>
        have hmem : (a :: rest2) ∈ cfg.unitsRem := by
          rw [List.get?_eq_getElem?] at hu
          exact List.getElem?_mem hu
        have ha : isAppendReply a := h2 _ hmem a (List.mem_cons_self _ _)
        obtain ⟨i, child, rfl⟩ := ha
        refine ⟨?_, ?_, h3, ?_⟩
        · intro hd
          rw [show (applyAction cfg.sess (OrchAction.appendReply i child)).Done = cfg.sess.Done
            from rfl] at hd
          have := (h1 hd).2 _ hmem
          cases this
        · intro u' hu'
          rcases List.mem_or_eq_of_mem_set hu' with hu2 | rfl
          · exact h2 u' hu2
          · exact fun x hx => h2 _ hmem x (List.mem_cons_of_mem _ hx)
        · intro hmd
          exfalso
          have := (h4 hmd).2
          rw [this] at hmem
          cases hmem
  | joinStep =>
    rw [stepChoice]
    by_cases hg : (cfg.mainRem.isEmpty && cfg.unitsRem.all List.isEmpty) = true
    · rw [if_pos hg]
      rcases (by simpa using hg :
        cfg.mainRem.isEmpty = true ∧ cfg.unitsRem.all List.isEmpty = true) with ⟨hge, hga⟩
      refine ⟨?_, h2, h3, h4⟩
      intro _
      refine ⟨List.isEmpty_iff.mp hge, ?_⟩
      intro u hu
      exact List.isEmpty_iff.mp (List.all_eq_true.mp hga u hu)
    · rw [if_neg hg]
      exact ⟨h1, h2, h3, h4⟩

/-- The initial configuration satisfies `C6Inv`. -/
theorem C6Inv_init (c : Collab) : C6Inv (initConfig c) := by
  refine ⟨?_, ?_, ?_, ?_⟩
  · intro hd
    cases hd
  · intro u hu
    cases hu
  · intro pi2 acts hmem
    have hmem2 : OrchAction.spawnReply pi2 acts ∈ mainActions c := hmem
    rw [mainActions] at hmem2
    cases hg : generateStances c.stanceOutcome with
    | error e =>
      rw [hg] at hmem2
      rcases List.mem_cons.mp hmem2 with h | h
      · cases h
      rcases List.mem_singleton.mp h with h2
      cases h2
    | ok stances =>
      rw [hg] at hmem2
      rcases List.mem_cons.mp hmem2 with h | h
      · cases h
      · rw [spawn_mem_commentLoop c stances 0 pi2 acts h]
        exact replyUnitActions_appendReply c pi2
  · intro hmd
    have hmd2 : OrchAction.markDone ∈ mainActions c := hmd
    have hgoal : ((∃ e, mainActions c = [OrchAction.setError e, OrchAction.markDone]) ∨
        mainActions c = [OrchAction.markDone]) ∧ ([] : List (List OrchAction)) = [] := by
      rw [mainActions] at hmd2 ⊢
      cases hg : generateStances c.stanceOutcome with
      | error e =>
        exact ⟨Or.inl ⟨e, rfl⟩, rfl⟩
      | ok stances =>
        exfalso
        rw [hg] at hmd2
        rcases List.mem_cons.mp hmd2 with h | h
        · cases h
        · exact markDone_not_mem_commentLoop c stances 0 h
    exact hgoal

end ShadowReddit

namespace ShadowReddit

/-- Claim C6: along every schedule of the orchestration, the `Done`
flag never reverts (so it transitions false-to-true at most once), and
whenever it is set, the main generation loop has ended and every
spawned reply goroutine has finished - completion is the join point. -/
theorem done_monotone_and_join (c : Collab) (sched : List SchedChoice) :
    (∀ (p q : Nat) (cp cq : OrchConfig),
      (runTrace (initConfig c) sched)[p]? = some cp →
      (runTrace (initConfig c) sched)[q]? = some cq →
      p ≤ q → cp.sess.Done = true → cq.sess.Done = true)
    ∧ (∀ (p : Nat) (cp : OrchConfig),
      (runTrace (initConfig c) sched)[p]? = some cp →
      cp.sess.Done = true →
      cp.mainRem = [] ∧ ∀ u ∈ cp.unitsRem, u = []) := by
  have hbound : ∀ (p : Nat) (cp : OrchConfig),
      (runTrace (initConfig c) sched)[p]? = some cp →
      p ≤ sched.length ∧ cp = runSched (initConfig c) (sched.take p) := by
    intro p cp hp
    have hple : p ≤ sched.length := by
      by_contra hgt
      rw [runTrace_getElem_none _ _ _ (Nat.lt_of_not_le hgt)] at hp
      cases hp
    rw [runTrace_getElem _ _ _ hple] at hp
    exact ⟨hple, (Option.some.inj hp).symm⟩
  constructor
  · intro p q cp cq hp hq hpq hdp
    obtain ⟨hple, hcp⟩ := hbound p cp hp
    obtain ⟨hqle, hcq⟩ := hbound q cq hq
    have htake : sched.take q = sched.take p ++ (sched.drop p).take (q - p) := by
      rw [← List.take_add, (by omega : p + (q - p) = q)]
    rw [hcq, htake, runSched_append, ← hcp]
    exact runSched_inv (fun cfg => cfg.sess.Done = true)
      done_monotone_step _ cp hdp
  · intro p cp hp hdp
    obtain ⟨hple, hcp⟩ := hbound p cp hp
    have hinv : C6Inv cp := by
      rw [hcp]
      exact runSched_inv C6Inv C6Inv_step _ _ (C6Inv_init c)
    exact hinv.1 hdp

/-- A collaborator whose stance selection fails (no function call in the
response); generation calls never happen. -/
def collabWit : Collab :=
  { stanceOutcome := ChatOutcome.noFunctionCall,
    commentResult := fun _ => Except.ok "",
    replyResult := fun _ => Except.ok "",
    replyUsername := fun _ => "u" }

/-- Witness for `done_monotone_and_join`: after the two main-goroutine
steps of the stance-failure path, the trace position 2 holds a
configuration with `Done = true`, and the theorem yields that its main
queue is empty and no reply goroutine is pending. -/
theorem done_monotone_and_join_witness :
    (runTrace (initConfig collabWit)
        [SchedChoice.mainStep, SchedChoice.mainStep])[2]? =
      some (runSched (initConfig collabWit)
        [SchedChoice.mainStep, SchedChoice.mainStep])
    ∧ (runSched (initConfig collabWit)
        [SchedChoice.mainStep, SchedChoice.mainStep]).sess.Done = true
    ∧ ((runSched (initConfig collabWit)
          [SchedChoice.mainStep, SchedChoice.mainStep]).mainRem = []
      ∧ ∀ u ∈ (runSched (initConfig collabWit)
          [SchedChoice.mainStep, SchedChoice.mainStep]).unitsRem, u = []) :=
  ⟨rfl, rfl,
   (done_monotone_and_join collabWit
      [SchedChoice.mainStep, SchedChoice.mainStep]).2 2 _ rfl rfl⟩

end ShadowReddit

namespace ShadowReddit

/-- Claim C4: when stance selection fails, the background goroutine's
whole plan is to record the failure and mark the session done - no
comment generation is ever scheduled; along every schedule the session
keeps zero comments, spawns no reply goroutine, and can only be done
with the failure recorded; the two-step schedule completes it; and an
observer of the completed failed session receives only the `done`
event. -/
theorem stance_failure_only_done (c : Collab) (e : String)
    (hfail : generateStances c.stanceOutcome = Except.error e) :
    mainActions c = [OrchAction.setError e, OrchAction.markDone]
    ∧ (∀ sched : List SchedChoice,
        (runSched (initConfig c) sched).sess.Responses = []
        ∧ (runSched (initConfig c) sched).unitsRem = []
        ∧ ((runSched (initConfig c) sched).sess.Done = true →
            (runSched (initConfig c) sched).sess.Error = some e))
    ∧ (runSched (initConfig c) [SchedChoice.mainStep, SchedChoice.mainStep]).sess =
        { SelectedStances := [], Responses := [], Done := true, Error := some e }
    ∧ streamRun (attachState ⟨[], true⟩) [⟨[], true⟩] = [Event.done] := by
  have hmain : mainActions c = [OrchAction.setError e, OrchAction.markDone] := by
    rw [mainActions, hfail]
  have hinit : initConfig c =
      ⟨[OrchAction.setError e, OrchAction.markDone], [], SessionState.init⟩ := by
    show OrchConfig.mk (mainActions c) [] SessionState.init = _
    rw [hmain]
  refine ⟨hmain, ?_, by rw [hinit]; rfl, rfl⟩
  -- the inductive invariant of the stance-failure run
  have hstep : ∀ cfg ch,
      (cfg.unitsRem = [] ∧ cfg.sess.Responses = [] ∧
        ((cfg.mainRem = [OrchAction.setError e, OrchAction.markDone] ∧ cfg.sess.Done = false)
         ∨ (cfg.mainRem = [OrchAction.markDone] ∧ cfg.sess.Error = some e ∧ cfg.sess.Done = false)
         ∨ (cfg.mainRem = [] ∧ cfg.sess.Error = some e ∧ cfg.sess.Done = true))) →
      ((stepChoice cfg ch).unitsRem = [] ∧ (stepChoice cfg ch).sess.Responses = [] ∧
        (((stepChoice cfg ch).mainRem = [OrchAction.setError e, OrchAction.markDone] ∧ (stepChoice cfg ch).sess.Done = false)
         ∨ ((stepChoice cfg ch).mainRem = [OrchAction.markDone] ∧ (stepChoice cfg ch).sess.Error = some e ∧ (stepChoice cfg ch).sess.Done = false)
         ∨ ((stepChoice cfg ch).mainRem = [] ∧ (stepChoice cfg ch).sess.Error = some e ∧ (stepChoice cfg ch).sess.Done = true))) := by
    intro cfg ch ⟨hu, hr, hcase⟩
    cases ch with
    | mainStep =>
      rw [stepChoice]
      rcases hcase with ⟨hm, hd⟩ | ⟨hm, he, hd⟩ | ⟨hm, he, hd⟩ <;> rw [hm]
      · exact ⟨hu, hr, Or.inr (Or.inl ⟨rfl, rfl, hd⟩)⟩
      · exact ⟨hu, hr, Or.inr (Or.inr ⟨rfl, he, rfl⟩)⟩
      · exact ⟨hu, hr, Or.inr (Or.inr ⟨hm, he, hd⟩)⟩
    | unitStep u =>
      rw [stepChoice, hu]
      exact ⟨hu, hr, hcase⟩
    | joinStep =>
      rw [stepChoice]
      rcases hcase with ⟨hm, hd⟩ | ⟨hm, he, hd⟩ | ⟨hm, he, hd⟩
      · rw [hm, if_neg (by simp)]
        exact ⟨hu, hr, Or.inl ⟨hm, hd⟩⟩
      · rw [hm, if_neg (by simp)]
        exact ⟨hu, hr, Or.inr (Or.inl ⟨hm, he, hd⟩)⟩
      · rw [hm, hu, if_pos (by rfl)]
        exact ⟨rfl, hr, Or.inr (Or.inr ⟨rfl, he, rfl⟩)⟩
  intro sched
  have hres := runSched_inv _ hstep sched (initConfig c)
    ⟨rfl, rfl, Or.inl ⟨hmain, rfl⟩⟩
  refine ⟨hres.2.1, hres.1, ?_⟩
  intro hd
  rcases hres.2.2 with ⟨_, hdf⟩ | ⟨_, _, hdf⟩ | ⟨_, he2, _⟩
  · rw [hd] at hdf; cases hdf
  · rw [hd] at hdf; cases hdf
  · exact he2
end ShadowReddit

namespace ShadowReddit

/-- Witness for `stance_failure_only_done` at the concrete failing
collaborator `collabWit`. -/
theorem stance_failure_only_done_witness :
    generateStances collabWit.stanceOutcome =
        Except.error "no function call in OpenAI response"
    ∧ (runSched (initConfig collabWit)
        [SchedChoice.mainStep, SchedChoice.mainStep]).sess =
        { SelectedStances := [], Responses := [], Done := true,
          Error := some "no function call in OpenAI response" } :=
  ⟨rfl, (stance_failure_only_done collabWit
    "no function call in OpenAI response" rfl).2.2.1⟩

end ShadowReddit

namespace ShadowReddit

/-- A reply append keeps the comment list's length, keeps every comment
at a different index untouched, and keeps the `Username`/`Flair`/`Text`
of the target comment. -/
theorem appendReplyAt_preserves (responses : List SimulatedComment) (i : Nat)
    (child : SimulatedComment) :
    (appendReplyAt responses i child).length = responses.length
    ∧ ∀ (j : Nat) (hj : j < responses.length)
        (hj2 : j < (appendReplyAt responses i child).length),
      ((appendReplyAt responses i child).get ⟨j, hj2⟩).Username =
          (responses.get ⟨j, hj⟩).Username
      ∧ ((appendReplyAt responses i child).get ⟨j, hj2⟩).Flair =
          (responses.get ⟨j, hj⟩).Flair
      ∧ ((appendReplyAt responses i child).get ⟨j, hj2⟩).Text =
          (responses.get ⟨j, hj⟩).Text
      ∧ (j ≠ i → (appendReplyAt responses i child).get ⟨j, hj2⟩ =
          responses.get ⟨j, hj⟩) := by
  rw [appendReplyAt]
  cases hgi : responses.get? i with
  | none => exact ⟨rfl, fun j hj hj2 => ⟨rfl, rfl, rfl, fun _ => rfl⟩⟩
  | some c0 =>
    refine ⟨List.length_set _ _ _, ?_⟩
    intro j hj hj2
    by_cases hji : j = i
    · subst hji
      have hset : (responses.set j (c0.pushReply child)).get ⟨j, hj2⟩ =
          c0.pushReply child := by
        rw [List.get_eq_getElem, List.getElem_set_self]
      have hc0 : responses.get ⟨j, hj⟩ = c0 := by
        rw [List.get?_eq_getElem?, List.getElem?_eq_getElem hj] at hgi
        rw [List.get_eq_getElem]
        exact Option.some.inj hgi
      rw [hset, hc0]
      obtain ⟨u, fl, t, rs⟩ := c0
      exact ⟨rfl, rfl, rfl, fun hne => absurd rfl hne⟩
    · have hset : (responses.set i (c0.pushReply child)).get ⟨j, hj2⟩ =
          responses.get ⟨j, hj⟩ := by
        rw [List.get_eq_getElem, List.get_eq_getElem,
          List.getElem_set_ne (fun h => hji h.symm)]
      rw [hset]
      exact ⟨rfl, rfl, rfl, fun _ => rfl⟩

/-- Weight of one pending action: a spawn also carries the actions of
the goroutine it creates. -/
def actionWeight : OrchAction → Nat
  | .spawnReply _ acts => 1 + acts.length
  | _ => 1

/-- Total pending work of a configuration. -/
def configMeasure (cfg : OrchConfig) : Nat :=
  (cfg.mainRem.map actionWeight).sum + (cfg.unitsRem.map List.length).sum

/-- Popping the head of one goroutine's queue lowers the unit total by
one. -/
theorem sumUnits_set (units : List (List OrchAction)) (u : Nat)
    (a : OrchAction) (rest : List OrchAction)
    (hu : units.get? u = some (a :: rest)) :
    ((units.set u rest).map List.length).sum + 1 = (units.map List.length).sum := by
  induction units generalizing u with
  | nil => cases hu
  | cons x xs ih =>
    cases u with
    | zero =>
      cases hu
      simp [List.set]
      omega
    | succ u' =>
      have := ih u' hu
      simp [List.set] at this ⊢
      omega

/-- Every configuration can be scheduled to completion: run the main
goroutine to its end, run every spawned goroutine to its end, then the
joining goroutine sets `Done`. -/
theorem exists_done : ∀ (n : Nat) (cfg : OrchConfig), configMeasure cfg ≤ n →
    ∃ sched, (runSched cfg sched).sess.Done = true := by
  intro n
  induction n with
  | zero =>
    intro cfg hμ
    have hmain : cfg.mainRem = [] := by
      cases hm : cfg.mainRem with
      | nil => rfl
      | cons a rest =>
        exfalso
        rw [configMeasure, hm] at hμ
        have : 1 ≤ actionWeight a := by cases a <;> simp [actionWeight]
        simp at hμ
        omega
    have hunits : cfg.unitsRem.all List.isEmpty = true := by
      rw [List.all_eq_true]
      intro u hu
      rw [List.isEmpty_iff]
      rw [configMeasure] at hμ
      have hsum : (cfg.unitsRem.map List.length).sum = 0 := by omega
      have := List.sum_eq_zero_iff.mp ?_ (u.length) (List.mem_map_of_mem _ hu)
      · exact List.length_eq_zero.mp this
      · exact hsum
    refine ⟨[SchedChoice.joinStep], ?_⟩
    rw [runSched, runSched, stepChoice,
      if_pos (by rw [hmain, hunits]; rfl)]
  | succ n ih =>
    intro cfg hμ
    cases hm : cfg.mainRem with
    | cons a rest =>
      have hdec : configMeasure (stepChoice cfg SchedChoice.mainStep) ≤ n := by
        cases a with
        | spawnReply pi2 acts =>
          have hstep : stepChoice cfg SchedChoice.mainStep =
              { cfg with mainRem := rest, unitsRem := cfg.unitsRem ++ [acts] } := by
            simp only [stepChoice, hm]
          rw [hstep]
          simp only [configMeasure]
          rw [configMeasure, hm] at hμ
          simp only [List.map_cons, List.sum_cons, actionWeight] at hμ
          simp only [List.map_append, List.sum_append, List.map_cons,
            List.sum_cons, List.map_nil, List.sum_nil]
          omega
        | setStances l =>
          have hstep : stepChoice cfg SchedChoice.mainStep =
              { cfg with mainRem := rest, sess := applyAction cfg.sess (OrchAction.setStances l) } := by
            simp only [stepChoice, hm]
          rw [hstep]
          simp only [configMeasure]
          rw [configMeasure, hm] at hμ
          simp only [List.map_cons, List.sum_cons, actionWeight] at hμ
          omega
        | setError e0 =>
          have hstep : stepChoice cfg SchedChoice.mainStep =
              { cfg with mainRem := rest, sess := applyAction cfg.sess (OrchAction.setError e0) } := by
            simp only [stepChoice, hm]
          rw [hstep]
          simp only [configMeasure]
          rw [configMeasure, hm] at hμ
          simp only [List.map_cons, List.sum_cons, actionWeight] at hμ
          omega
        | markDone =>
          have hstep : stepChoice cfg SchedChoice.mainStep =
              { cfg with mainRem := rest, sess := applyAction cfg.sess OrchAction.markDone } := by
            simp only [stepChoice, hm]
          rw [hstep]
          simp only [configMeasure]
          rw [configMeasure, hm] at hμ
          simp only [List.map_cons, List.sum_cons, actionWeight] at hμ
          omega
        | appendComment c0 =>
          have hstep : stepChoice cfg SchedChoice.mainStep =
              { cfg with mainRem := rest, sess := applyAction cfg.sess (OrchAction.appendComment c0) } := by
            simp only [stepChoice, hm]
          rw [hstep]
          simp only [configMeasure]
          rw [configMeasure, hm] at hμ
          simp only [List.map_cons, List.sum_cons, actionWeight] at hμ
          omega
        | appendReply i2 c0 =>
          have hstep : stepChoice cfg SchedChoice.mainStep =
              { cfg with mainRem := rest, sess := applyAction cfg.sess (OrchAction.appendReply i2 c0) } := by
            simp only [stepChoice, hm]
          rw [hstep]
          simp only [configMeasure]
          rw [configMeasure, hm] at hμ
          simp only [List.map_cons, List.sum_cons, actionWeight] at hμ
          omega
      obtain ⟨sched, hs⟩ := ih _ hdec
      exact ⟨SchedChoice.mainStep :: sched, by rw [runSched]; exact hs⟩
    | nil =>
      by_cases hall : ∀ u ∈ cfg.unitsRem, u = []
      · refine ⟨[SchedChoice.joinStep], ?_⟩
        have hunits : cfg.unitsRem.all List.isEmpty = true := by
          rw [List.all_eq_true]
          intro u hu
          rw [List.isEmpty_iff]
          exact hall u hu
        rw [runSched, runSched, stepChoice, if_pos (by rw [hm, hunits]; rfl)]
      · push_neg at hall
        obtain ⟨x, hx, hxne⟩ := hall
        obtain ⟨u, hu⟩ := List.mem_iff_getElem?.mp hx
        cases hxc : x with
        | nil => exact absurd hxc hxne
        | cons a rest2 =>
          subst hxc
          have hget : cfg.unitsRem.get? u = some (a :: rest2) := by
            rw [List.get?_eq_getElem?]
            exact hu
          have hdec : configMeasure (stepChoice cfg (SchedChoice.unitStep u)) ≤ n := by
            rw [stepChoice, hget]
            rw [configMeasure] at hμ ⊢
            have := sumUnits_set cfg.unitsRem u a rest2 hget
            simp only []
            omega
          obtain ⟨sched, hs⟩ := ih _ hdec
          exact ⟨SchedChoice.unitStep u :: sched, by rw [runSched]; exact hs⟩

end ShadowReddit

namespace ShadowReddit

/-- The top-level comments a queue of pending main-goroutine actions
would still append. -/
def appendsOf : List OrchAction → List SimulatedComment :=
  List.filterMap fun a =>
    match a with
    | OrchAction.appendComment c0 => some c0
    | _ => none

/-- The comments the main loop still owes when `m` comments exist and
the `f`-th generation will fail. -/
def expectedFrom (stances : List Stance) (f : Nat) (texts : Nat → String)
    (m : Nat) : List SimulatedComment :=
  (List.range' m (f - m)).map
    (fun j => mkTopComment (stances.getD j default) (texts j))

/-- Shape of the comment loop when the `f`-th generation fails: it
appends exactly the first `f` expected comments (each followed by its
spawn) and ends with the failure record. -/
theorem commentLoop_shape (c : Collab) (stances : List Stance) (f : Nat)
    (e : String) (texts : Nat → String)
    (hf : f < stances.length)
    (hok : ∀ j, j < f → c.commentResult j = Except.ok (texts j))
    (hfail : c.commentResult f = Except.error e) :
    ∀ (n k : Nat), k + n = f →
      appendsOf (commentLoopActions c (stances.drop k) k) =
        expectedFrom stances f texts k
      ∧ (commentLoopActions c (stances.drop k) k).getLast? =
          some (OrchAction.setError e)
      ∧ commentLoopActions c (stances.drop k) k ≠ []
      ∧ (∀ (pi2 : Nat) (acts : List OrchAction),
          OrchAction.spawnReply pi2 acts ∈ commentLoopActions c (stances.drop k) k →
          acts = replyUnitActions c pi2) := by
  intro n
  induction n with
  | zero =>
    intro k hk
    have hkf : k = f := by omega
    subst hkf
    rw [List.drop_eq_getElem_cons hf, commentLoopActions, hfail]
    refine ⟨?_, rfl, ?_, ?_⟩
    · rw [expectedFrom, Nat.sub_self]
      rfl
    · intro h
      cases (h : ([OrchAction.setError e] : List OrchAction) = [])
    · intro pi2 acts hmem
      have hmem2 : OrchAction.spawnReply pi2 acts ∈
          ([OrchAction.setError e] : List OrchAction) := hmem
      rcases List.mem_singleton.mp hmem2 with h
      cases h
  | succ n ih =>
    intro k hk
    have hkf : k < f := by omega
    have hkl : k < stances.length := by omega
    obtain ⟨ha, hl, hne, hsp⟩ := ih (k + 1) (by omega)
    rw [List.drop_eq_getElem_cons hkl, commentLoopActions, hok k hkf]
    refine ⟨?_, ?_, ?_, ?_⟩
    · show appendsOf (OrchAction.appendComment (mkTopComment stances[k] (texts k)) ::
        OrchAction.spawnReply k (replyUnitActions c k) ::
        commentLoopActions c (stances.drop (k + 1)) (k + 1)) = _
      rw [appendsOf, List.filterMap_cons, List.filterMap_cons]
      show mkTopComment stances[k] (texts k) ::
        appendsOf (commentLoopActions c (stances.drop (k + 1)) (k + 1)) = _
      rw [ha, expectedFrom, expectedFrom,
        (by omega : f - k = (f - (k + 1)) + 1), List.range'_succ, List.map_cons]
      rw [List.getD_eq_getElem _ _ hkl]
    · show (OrchAction.appendComment (mkTopComment stances[k] (texts k)) ::
        OrchAction.spawnReply k (replyUnitActions c k) ::
        commentLoopActions c (stances.drop (k + 1)) (k + 1)).getLast? = _
      rw [List.getLast?_cons_cons]
      cases hrec : commentLoopActions c (stances.drop (k + 1)) (k + 1) with
      | nil => exact absurd hrec hne
      | cons y ys =>
        rw [List.getLast?_cons_cons, ← hrec, hl]
    · intro h
      cases (h : OrchAction.appendComment (mkTopComment stances[k] (texts k)) ::
        OrchAction.spawnReply k (replyUnitActions c k) ::
        commentLoopActions c (stances.drop (k + 1)) (k + 1) = [])
    · intro pi2 acts hmem
      have hmem2 : OrchAction.spawnReply pi2 acts ∈
          OrchAction.appendComment (mkTopComment stances[k] (texts k)) ::
          OrchAction.spawnReply k (replyUnitActions c k) ::
          commentLoopActions c (stances.drop (k + 1)) (k + 1) := hmem
      rcases List.mem_cons.mp hmem2 with h | h
      · cases h
      rcases List.mem_cons.mp h with h2 | h2
      · cases h2
        rfl
      · exact hsp pi2 acts h2

end ShadowReddit

namespace ShadowReddit

/-- The inductive invariant of a run whose `f`-th top-level generation
fails: the comments still owed are exactly the expected remainder, at
most `f` comments ever exist and the existing ones carry the expected
author, flair and text; reply goroutines only append replies; the main
queue never holds `markDone` and always ends with the failure record;
once the main queue is drained the failure is recorded, and `Done`
implies the main queue is drained. -/
def C5Inv (stances : List Stance) (f : Nat) (e : String) (texts : Nat → String)
    (cfg : OrchConfig) : Prop :=
  appendsOf cfg.mainRem = expectedFrom stances f texts cfg.sess.Responses.length
  ∧ cfg.sess.Responses.length ≤ f
  ∧ (∀ (j : Nat) (hj : j < cfg.sess.Responses.length),
      (cfg.sess.Responses.get ⟨j, hj⟩).Username =
          (mkTopComment (stances.getD j default) (texts j)).Username
      ∧ (cfg.sess.Responses.get ⟨j, hj⟩).Flair =
          (mkTopComment (stances.getD j default) (texts j)).Flair
      ∧ (cfg.sess.Responses.get ⟨j, hj⟩).Text =
          (mkTopComment (stances.getD j default) (texts j)).Text)
  ∧ (∀ u ∈ cfg.unitsRem, ∀ x ∈ u, isAppendReply x)
  ∧ OrchAction.markDone ∉ cfg.mainRem
  ∧ (cfg.sess.Done = true → cfg.mainRem = [])
  ∧ (cfg.mainRem ≠ [] → cfg.mainRem.getLast? = some (OrchAction.setError e))
  ∧ (cfg.mainRem = [] → cfg.sess.Error = some e)
  ∧ (∀ (pi2 : Nat) (acts : List OrchAction),
      OrchAction.spawnReply pi2 acts ∈ cfg.mainRem → ∀ x ∈ acts, isAppendReply x)

/-- `C5Inv` is preserved by every scheduler step. -/
theorem C5Inv_step (stances : List Stance) (f : Nat) (e : String)
    (texts : Nat → String) (cfg : OrchConfig) (ch : SchedChoice)
    (h : C5Inv stances f e texts cfg) :
    C5Inv stances f e texts (stepChoice cfg ch) := by
  obtain ⟨ha, hb, hc, hd, he, hf2, hg, hh, hi⟩ := h
  cases ch with
  | mainStep =>
    cases hm : cfg.mainRem with
    | nil =>
      have hstep : stepChoice cfg SchedChoice.mainStep = cfg := by
        simp only [stepChoice, hm]
      rw [hstep]
      exact ⟨ha, hb, hc, hd, he, hf2, hg, hh, hi⟩
    | cons a rest =>
      have hDoneFalse : cfg.sess.Done = false := by
        cases hdx : cfg.sess.Done
        · rfl
        · exact absurd (hf2 hdx ▸ hm) (by intro h2; cases h2)
      have hmdrest : OrchAction.markDone ∉ rest := by
        intro h2
        exact he (hm ▸ List.mem_cons_of_mem _ h2)
      have hgrest : rest ≠ [] → rest.getLast? = some (OrchAction.setError e) := by
        intro hne
        have := hg (by rw [hm]; intro h2; cases h2)
        rw [hm] at this
        cases hrest : rest with
        | nil => exact absurd hrest hne
        | cons y ys => rw [← hrest]; rw [hrest] at this ⊢; rw [← List.getLast?_cons_cons]; exact this
      have hirest : ∀ (pi2 : Nat) (acts : List OrchAction),
          OrchAction.spawnReply pi2 acts ∈ rest → ∀ x ∈ acts, isAppendReply x :=
        fun pi2 acts h2 => hi pi2 acts (hm ▸ List.mem_cons_of_mem _ h2)
      have hlast := hg (by rw [hm]; intro h2; cases h2)
      rw [hm] at hlast
      cases a with
      | markDone => exact absurd (hm ▸ List.mem_cons_self _ _) he
      | setStances l =>
        have hstep : stepChoice cfg SchedChoice.mainStep =
            { cfg with mainRem := rest, sess := applyAction cfg.sess (OrchAction.setStances l) } := by
          simp only [stepChoice, hm]
        rw [hstep]
        have hane : rest ≠ [] := by
          intro hrest
          rw [hrest] at hlast
          cases (Option.some.inj hlast)
        refine ⟨?_, hb, hc, hd, hmdrest, ?_, fun _ => hgrest hane, ?_, hirest⟩
        · have : appendsOf (OrchAction.setStances l :: rest) = appendsOf rest := by
            rw [appendsOf, List.filterMap_cons]
          rw [hm] at ha
          rw [← this]
          exact ha
        · intro hdone
          rw [show (applyAction cfg.sess (OrchAction.setStances l)).Done =
            cfg.sess.Done from rfl, hDoneFalse] at hdone
          cases hdone
        · intro hrest
          exact absurd hrest hane
      | setError e0 =>
        have hstep : stepChoice cfg SchedChoice.mainStep =
            { cfg with mainRem := rest, sess := applyAction cfg.sess (OrchAction.setError e0) } := by
          simp only [stepChoice, hm]
        rw [hstep]
        refine ⟨?_, hb, hc, hd, hmdrest, ?_, hgrest, ?_, hirest⟩
        · have : appendsOf (OrchAction.setError e0 :: rest) = appendsOf rest := by
            rw [appendsOf, List.filterMap_cons]
          rw [hm] at ha
          rw [← this]
          exact ha
        · intro hdone
          rw [show (applyAction cfg.sess (OrchAction.setError e0)).Done =
            cfg.sess.Done from rfl, hDoneFalse] at hdone
          cases hdone
        · intro hrest
          have hrest2 : rest = [] := hrest
          rw [hrest2] at hlast
          have he0 : e0 = e := by
            have h2 := Option.some.inj hlast
            injection h2
          show (applyAction cfg.sess (OrchAction.setError e0)).Error = some e
          rw [show (applyAction cfg.sess (OrchAction.setError e0)).Error =
            some e0 from rfl, he0]
      | appendComment c0 =>
        have hstep : stepChoice cfg SchedChoice.mainStep =
            { cfg with mainRem := rest, sess := applyAction cfg.sess (OrchAction.appendComment c0) } := by
          simp only [stepChoice, hm]
        rw [hstep]
        -- decompose the expected remainder
        rw [hm] at ha
        have ha2 : c0 :: appendsOf rest =
            expectedFrom stances f texts cfg.sess.Responses.length := by
          rw [← ha, appendsOf, List.filterMap_cons]
        have hflen : cfg.sess.Responses.length < f := by
          by_contra hge
          have : f - cfg.sess.Responses.length = 0 := by omega
          rw [expectedFrom, this] at ha2
          cases ha2
        have hdecomp : expectedFrom stances f texts cfg.sess.Responses.length =
            mkTopComment (stances.getD cfg.sess.Responses.length default)
              (texts cfg.sess.Responses.length) ::
            expectedFrom stances f texts (cfg.sess.Responses.length + 1) := by
          rw [expectedFrom, expectedFrom,
            (by omega : f - cfg.sess.Responses.length =
              (f - (cfg.sess.Responses.length + 1)) + 1),
            List.range'_succ, List.map_cons]
        rw [hdecomp] at ha2
        have hc0 : c0 = mkTopComment (stances.getD cfg.sess.Responses.length default)
            (texts cfg.sess.Responses.length) := by
          injection ha2
        have harest : appendsOf rest =
            expectedFrom stances f texts (cfg.sess.Responses.length + 1) := by
          injection ha2
        have hlen' : (applyAction cfg.sess (OrchAction.appendComment c0)).Responses.length =
            cfg.sess.Responses.length + 1 := by
          show (cfg.sess.Responses ++ [c0]).length = _
          rw [List.length_append]
          rfl
        have hane : rest ≠ [] := by
          intro hrest
          rw [hrest] at hlast
          cases (Option.some.inj hlast)
        refine ⟨?_, ?_, ?_, hd, hmdrest, ?_, fun _ => hgrest hane, ?_, hirest⟩
        · rw [hlen', harest]
        · show (applyAction cfg.sess (OrchAction.appendComment c0)).Responses.length ≤ f
          omega
        · intro j hj
          have hj2 : j < cfg.sess.Responses.length + 1 := by
            have h3 : j < (cfg.sess.Responses ++ [c0]).length := hj
            rw [List.length_append] at h3
            simpa using h3
          show ((cfg.sess.Responses ++ [c0]).get ⟨j, _⟩).Username = _
            ∧ ((cfg.sess.Responses ++ [c0]).get ⟨j, _⟩).Flair = _
            ∧ ((cfg.sess.Responses ++ [c0]).get ⟨j, _⟩).Text = _
          rcases Nat.lt_or_ge j cfg.sess.Responses.length with hjl | hjr
          · have hget : (cfg.sess.Responses ++ [c0]).get
                ⟨j, by rw [List.length_append]; omega⟩ =
                cfg.sess.Responses.get ⟨j, hjl⟩ := by
              rw [List.get_eq_getElem, List.get_eq_getElem,
                List.getElem_append_left hjl]
            rw [hget]
            exact hc j hjl
          · have hje : j = cfg.sess.Responses.length := by omega
            have hget : (cfg.sess.Responses ++ [c0]).get
                ⟨j, by rw [List.length_append, List.length_singleton]; omega⟩ = c0 := by
              rw [List.get_eq_getElem]
              exact List.getElem_concat_length _ _ _ hje _
            rw [hget, hc0, hje]
            exact ⟨rfl, rfl, rfl⟩
        · intro hdone
          rw [show (applyAction cfg.sess (OrchAction.appendComment c0)).Done =
            cfg.sess.Done from rfl, hDoneFalse] at hdone
          cases hdone
        · intro hrest
          exact absurd hrest hane
      | appendReply i2 c0 =>
        have hstep : stepChoice cfg SchedChoice.mainStep =
            { cfg with mainRem := rest, sess := applyAction cfg.sess (OrchAction.appendReply i2 c0) } := by
          simp only [stepChoice, hm]
        rw [hstep]
        obtain ⟨hlen2, hpres⟩ := appendReplyAt_preserves cfg.sess.Responses i2 c0
        have hane : rest ≠ [] := by
          intro hrest
          rw [hrest] at hlast
          cases (Option.some.inj hlast)
        refine ⟨?_, ?_, ?_, hd, hmdrest, ?_, fun _ => hgrest hane, ?_, hirest⟩
        · show appendsOf rest =
            expectedFrom stances f texts (appendReplyAt cfg.sess.Responses i2 c0).length
          rw [hlen2]
          rw [hm] at ha
          have : appendsOf (OrchAction.appendReply i2 c0 :: rest) = appendsOf rest := by
            rw [appendsOf, List.filterMap_cons]
          rw [← this]
          exact ha
        · show (appendReplyAt cfg.sess.Responses i2 c0).length ≤ f
          rw [hlen2]
          exact hb
        · intro j hj
          have hj0 : j < cfg.sess.Responses.length := by
            have := hlen2
            show j < cfg.sess.Responses.length
            rw [show (applyAction cfg.sess (OrchAction.appendReply i2 c0)).Responses =
              appendReplyAt cfg.sess.Responses i2 c0 from rfl] at hj
            omega
          obtain ⟨hu2, hf3, ht2, _⟩ := hpres j hj0 (by rw [hlen2]; exact hj0)
          have hcj := hc j hj0
          exact ⟨hu2.trans hcj.1, hf3.trans hcj.2.1, ht2.trans hcj.2.2⟩
        · intro hdone
          rw [show (applyAction cfg.sess (OrchAction.appendReply i2 c0)).Done =
            cfg.sess.Done from rfl, hDoneFalse] at hdone
          cases hdone
        · intro hrest
          exact absurd hrest hane
      | spawnReply pi2 acts =>
        have hstep : stepChoice cfg SchedChoice.mainStep =
            { cfg with mainRem := rest, unitsRem := cfg.unitsRem ++ [acts] } := by
          simp only [stepChoice, hm]
        rw [hstep]
        have hane : rest ≠ [] := by
          intro hrest
          rw [hrest] at hlast
          cases (Option.some.inj hlast)
        refine ⟨?_, hb, hc, ?_, hmdrest, ?_, fun _ => hgrest hane, ?_, hirest⟩
        · rw [hm] at ha
          have : appendsOf (OrchAction.spawnReply pi2 acts :: rest) = appendsOf rest := by
            rw [appendsOf, List.filterMap_cons]
          rw [← this]
          exact ha
        · intro u hu
          rcases List.mem_append.mp hu with hu2 | hu2
          · exact hd u hu2
          · rcases List.mem_singleton.mp hu2 with rfl
            exact hi pi2 u (hm ▸ List.mem_cons_self _ _)
        · intro hdone
          rw [hDoneFalse] at hdone
          cases hdone
        · intro hrest
          exact absurd hrest hane
  | unitStep u =>
    cases hu : cfg.unitsRem.get? u with
    | none =>
      have hstep : stepChoice cfg (SchedChoice.unitStep u) = cfg := by
        simp only [stepChoice, hu]
      rw [hstep]
      exact ⟨ha, hb, hc, hd, he, hf2, hg, hh, hi⟩
    | some acts =>
      cases acts with
      | nil =>
        have hstep : stepChoice cfg (SchedChoice.unitStep u) = cfg := by
          simp only [stepChoice, hu]
        rw [hstep]
        exact ⟨ha, hb, hc, hd, he, hf2, hg, hh, hi⟩
      | cons a rest2 =>
        have hstep : stepChoice cfg (SchedChoice.unitStep u) =
            { cfg with unitsRem := cfg.unitsRem.set u rest2, sess := applyAction cfg.sess a } := by
          simp only [stepChoice, hu]
        rw [hstep]
        have hmem : (a :: rest2) ∈ cfg.unitsRem := by
          rw [List.get?_eq_getElem?] at hu
          exact List.getElem?_mem hu
        obtain ⟨i2, c0, rfl⟩ := hd _ hmem a (List.mem_cons_self _ _)
        obtain ⟨hlen2, hpres⟩ := appendReplyAt_preserves cfg.sess.Responses i2 c0
        refine ⟨?_, ?_, ?_, ?_, he, ?_, hg, ?_, hi⟩
        · show appendsOf cfg.mainRem =
            expectedFrom stances f texts (appendReplyAt cfg.sess.Responses i2 c0).length
          rw [hlen2]
          exact ha
        · show (appendReplyAt cfg.sess.Responses i2 c0).length ≤ f
          rw [hlen2]
          exact hb
        · intro j hj
          have hj0 : j < cfg.sess.Responses.length := by
            rw [show (applyAction cfg.sess (OrchAction.appendReply i2 c0)).Responses =
              appendReplyAt cfg.sess.Responses i2 c0 from rfl] at hj
            omega
          obtain ⟨hu2, hf3, ht2, _⟩ := hpres j hj0 (by rw [hlen2]; exact hj0)
          have hcj := hc j hj0
          exact ⟨hu2.trans hcj.1, hf3.trans hcj.2.1, ht2.trans hcj.2.2⟩
        · intro u' hu'
          rcases List.mem_or_eq_of_mem_set hu' with hu2 | rfl
          · exact hd u' hu2
          · exact fun x hx => hd _ hmem x (List.mem_cons_of_mem _ hx)
        · intro hdone
          rw [show (applyAction cfg.sess (OrchAction.appendReply i2 c0)).Done =
            cfg.sess.Done from rfl] at hdone
          exact hf2 hdone
        · intro hrest
          rw [show (applyAction cfg.sess (OrchAction.appendReply i2 c0)).Error =
            cfg.sess.Error from rfl]
          exact hh hrest
  | joinStep =>
    by_cases hguard : (cfg.mainRem.isEmpty && cfg.unitsRem.all List.isEmpty) = true
    · have hstep : stepChoice cfg SchedChoice.joinStep =
          { cfg with sess := { cfg.sess with Done := true } } := by
        simp only [stepChoice, if_pos hguard]
      rw [hstep]
      have hme : cfg.mainRem = [] := by
        rcases (by simpa using hguard :
          cfg.mainRem.isEmpty = true ∧ cfg.unitsRem.all List.isEmpty = true) with ⟨h1, _⟩
        exact List.isEmpty_iff.mp h1
      exact ⟨ha, hb, hc, hd, he, fun _ => hme, hg, fun _ => hh hme, hi⟩
    · have hstep : stepChoice cfg SchedChoice.joinStep = cfg := by
        simp only [stepChoice, if_neg hguard]
      rw [hstep]
      exact ⟨ha, hb, hc, hd, he, hf2, hg, hh, hi⟩

end ShadowReddit

namespace ShadowReddit

/-- The initial configuration of a run whose `f`-th generation will fail
satisfies `C5Inv`. -/
theorem C5Inv_init (c : Collab) (stances : List Stance) (f : Nat) (e : String)
    (texts : Nat → String)
    (hst : generateStances c.stanceOutcome = Except.ok stances)
    (hf : f < stances.length)
    (hok : ∀ j, j < f → c.commentResult j = Except.ok (texts j))
    (hfail : c.commentResult f = Except.error e) :
    C5Inv stances f e texts (initConfig c) := by
  obtain ⟨ha0, hl0, hne0, hsp0⟩ :=
    commentLoop_shape c stances f e texts hf hok hfail f 0 (by omega)
  rw [List.drop_zero] at ha0 hl0 hne0 hsp0
  have hmain : (initConfig c).mainRem =
      OrchAction.setStances stances :: commentLoopActions c stances 0 := by
    show mainActions c = _
    rw [mainActions, hst]
  refine ⟨?_, ?_, ?_, ?_, ?_, ?_, ?_, ?_, ?_⟩
  · rw [hmain]
    have hcons : appendsOf (OrchAction.setStances stances ::
        commentLoopActions c stances 0) =
        appendsOf (commentLoopActions c stances 0) := by
      rw [appendsOf, List.filterMap_cons]
    rw [hcons, ha0]
    rfl
  · show ([] : List SimulatedComment).length ≤ f
    simp
  · intro j hj
    have hj0 : j < ([] : List SimulatedComment).length := hj
    simp at hj0
  · intro u hu
    cases hu
  · rw [hmain]
    intro hmem
    rcases List.mem_cons.mp hmem with h | h
    · cases h
    · exact markDone_not_mem_commentLoop c stances 0 h
  · intro hd
    cases hd
  · rw [hmain]
    intro _
    cases hrec : commentLoopActions c stances 0 with
    | nil => exact absurd hrec hne0
    | cons y ys =>
      rw [List.getLast?_cons_cons, ← hrec]
      exact hl0
  · rw [hmain]
    intro h2
    cases h2
  · rw [hmain]
    intro pi2 acts hmem
    rcases List.mem_cons.mp hmem with h | h
    · cases h
    · rw [hsp0 pi2 acts h]
      exact replyUnitActions_appendReply c pi2

/-- Claim C5: when the `f`-th top-level generation fails (0-based: `f`
comments were already appended), every schedule keeps at most `f`
comments, every existing comment keeps the author/flair/text built from
its stance and generated text, and a completed session has the failure
recorded and exactly `f` comments; moreover a completing schedule
exists.  In particular with 3 selected stances and the 2nd generation
failing (`f = 1`) the session ends complete with exactly 1 comment at
index 0. -/
theorem topLevel_failure_truncates (c : Collab) (stances : List Stance)
    (f : Nat) (e : String) (texts : Nat → String)
    (hst : generateStances c.stanceOutcome = Except.ok stances)
    (hf : f < stances.length)
    (hok : ∀ j, j < f → c.commentResult j = Except.ok (texts j))
    (hfail : c.commentResult f = Except.error e) :
    (∀ sched : List SchedChoice,
      (runSched (initConfig c) sched).sess.Responses.length ≤ f
      ∧ (∀ (j : Nat) (hj : j < (runSched (initConfig c) sched).sess.Responses.length),
          ((runSched (initConfig c) sched).sess.Responses.get ⟨j, hj⟩).Username =
              (mkTopComment (stances.getD j default) (texts j)).Username
          ∧ ((runSched (initConfig c) sched).sess.Responses.get ⟨j, hj⟩).Flair =
              (mkTopComment (stances.getD j default) (texts j)).Flair
          ∧ ((runSched (initConfig c) sched).sess.Responses.get ⟨j, hj⟩).Text =
              (mkTopComment (stances.getD j default) (texts j)).Text)
      ∧ ((runSched (initConfig c) sched).sess.Done = true →
          (runSched (initConfig c) sched).sess.Error = some e
          ∧ (runSched (initConfig c) sched).sess.Responses.length = f))
    ∧ (∃ sched : List SchedChoice,
        (runSched (initConfig c) sched).sess.Done = true) := by
  constructor
  · intro sched
    have hinv : C5Inv stances f e texts (runSched (initConfig c) sched) :=
      runSched_inv _ (C5Inv_step stances f e texts) sched (initConfig c)
        (C5Inv_init c stances f e texts hst hf hok hfail)
    obtain ⟨ha, hb, hc, _, _, hf2, _, hh, _⟩ := hinv
    refine ⟨hb, hc, ?_⟩
    intro hd
    have hme : (runSched (initConfig c) sched).mainRem = [] := hf2 hd
    refine ⟨hh hme, ?_⟩
    rw [hme] at ha
    have hlen := congrArg List.length ha
    rw [expectedFrom, List.length_map, List.length_range'] at hlen
    have : appendsOf ([] : List OrchAction) = [] := rfl
    rw [this] at hlen
    simp at hlen
    omega
  · exact exists_done (configMeasure (initConfig c)) (initConfig c) (Nat.le_refl _)

/-- The concrete collaborator of the claim's "in particular" scenario:
3 selected stances, the 2nd top-level generation fails. -/
def collabC5 : Collab :=
  { stanceOutcome := ChatOutcome.arguments
      [stanceSupportive, stanceSupportive, stanceSupportive],
    commentResult := fun j => if j = 0 then Except.ok "t0"
      else Except.error "generation failed",
    replyResult := fun _ => Except.ok "r0",
    replyUsername := fun _ => "ReplyMaster" }

/-- Witness for `topLevel_failure_truncates` at `collabC5`: with 3
stances and the 2nd generation failing, every schedule keeps at most one
comment, and some schedule completes the session. -/
theorem topLevel_failure_truncates_witness :
    generateStances collabC5.stanceOutcome =
        Except.ok [stanceSupportive, stanceSupportive, stanceSupportive]
    ∧ (1 < ([stanceSupportive, stanceSupportive, stanceSupportive] : List Stance).length)
    ∧ (∀ j, j < 1 → collabC5.commentResult j = Except.ok "t0")
    ∧ collabC5.commentResult 1 = Except.error "generation failed"
    ∧ (∀ sched : List SchedChoice,
        (runSched (initConfig collabC5) sched).sess.Responses.length ≤ 1)
    ∧ (∃ sched : List SchedChoice,
        (runSched (initConfig collabC5) sched).sess.Done = true) := by
  have hok : ∀ j, j < 1 → collabC5.commentResult j = Except.ok ((fun _ => "t0") j) := by
    intro j hj
    have hj0 : j = 0 := by omega
    subst hj0
    rfl
  have happ := topLevel_failure_truncates collabC5
    [stanceSupportive, stanceSupportive, stanceSupportive] 1 "generation failed"
    (fun _ => "t0") rfl (by decide) hok rfl
  exact ⟨rfl, by decide, hok, rfl, fun sched => (happ.1 sched).1, happ.2⟩

end ShadowReddit

namespace ShadowReddit

/-- The inductive invariant of the reply fan-out: each of the `N` reply
goroutines either still has its single append pending and its parent
comment untouched, or has finished and its parent carries exactly its
appended reply; nothing else of the session changes. -/
def C9Inv (c : Collab) (N : Nat) (texts : Nat → String) (st0 : SessionState)
    (cfg : OrchConfig) : Prop :=
  cfg.mainRem = []
  ∧ cfg.unitsRem.length = N
  ∧ cfg.sess.Responses.length = N
  ∧ cfg.sess.Error = st0.Error
  ∧ cfg.sess.SelectedStances = st0.SelectedStances
  ∧ ∀ i, i < N →
      (cfg.unitsRem.getD i [] = replyUnitActions c i ∧
        cfg.sess.Responses.getD i default = st0.Responses.getD i default)
      ∨ (cfg.unitsRem.getD i [] = [] ∧
        cfg.sess.Responses.getD i default =
          (st0.Responses.getD i default).pushReply
            (mkReplyComment (c.replyUsername i) (texts i)))

/-- `C9Inv` is preserved by every scheduler step. -/
theorem C9Inv_step (c : Collab) (N : Nat) (texts : Nat → String)
    (st0 : SessionState)
    (hok : ∀ k, k < N → c.replyResult k = Except.ok (texts k))
    (cfg : OrchConfig) (ch : SchedChoice)
    (h : C9Inv c N texts st0 cfg) : C9Inv c N texts st0 (stepChoice cfg ch) := by
  obtain ⟨hm, hul, hrl, herr, hsel, hunits⟩ := h
  cases ch with
  | mainStep =>
    have hstep : stepChoice cfg SchedChoice.mainStep = cfg := by
      simp only [stepChoice, hm]
    rw [hstep]
    exact ⟨hm, hul, hrl, herr, hsel, hunits⟩
  | joinStep =>
    by_cases hguard : (cfg.mainRem.isEmpty && cfg.unitsRem.all List.isEmpty) = true
    · have hstep : stepChoice cfg SchedChoice.joinStep =
          { cfg with sess := { cfg.sess with Done := true } } := by
        simp only [stepChoice, if_pos hguard]
      rw [hstep]
      exact ⟨hm, hul, hrl, herr, hsel, hunits⟩
    · have hstep : stepChoice cfg SchedChoice.joinStep = cfg := by
        simp only [stepChoice, if_neg hguard]
      rw [hstep]
      exact ⟨hm, hul, hrl, herr, hsel, hunits⟩
  | unitStep u =>
    rcases Nat.lt_or_ge u N with huN | huN
    · have huL : u < cfg.unitsRem.length := by omega
      have hget : cfg.unitsRem.get? u = some (cfg.unitsRem.getD u []) := by
        rw [List.get?_eq_getElem?, List.getElem?_eq_getElem huL,
          List.getD_eq_getElem _ _ huL]
      rcases hunits u huN with ⟨hu1, hu2⟩ | ⟨hu1, hu2⟩
      · -- the goroutine still has its append pending
        rw [hu1, replyUnitActions, hok u huN] at hget
        have hstep : stepChoice cfg (SchedChoice.unitStep u) = { cfg with unitsRem := cfg.unitsRem.set u [], sess := applyAction cfg.sess (OrchAction.appendReply u (mkReplyComment (c.replyUsername u) (texts u))) } := by
          simp only [stepChoice, hget]
        rw [hstep]
        have hgetr : cfg.sess.Responses.get? u =
            some (cfg.sess.Responses.getD u default) := by
          rw [List.get?_eq_getElem?, List.getElem?_eq_getElem (by omega),
            List.getD_eq_getElem _ _ (by omega)]
        have happ : appendReplyAt cfg.sess.Responses u
            (mkReplyComment (c.replyUsername u) (texts u)) =
            cfg.sess.Responses.set u ((cfg.sess.Responses.getD u default).pushReply
              (mkReplyComment (c.replyUsername u) (texts u))) := by
          rw [appendReplyAt, hgetr]
        refine ⟨hm, ?_, ?_, herr, hsel, ?_⟩
        · show (cfg.unitsRem.set u []).length = N
          rw [List.length_set]
          exact hul
        · show (appendReplyAt cfg.sess.Responses u _).length = N
          rw [happ, List.length_set]
          exact hrl
        · intro i hiN
          by_cases hiu : i = u
          · subst hiu
            right
            constructor
            · rw [List.getD_eq_getElem _ _ (by rw [List.length_set]; omega)]
              rw [List.getElem_set_self]
            · show (appendReplyAt cfg.sess.Responses i _).getD i default = _
              rw [happ, List.getD_eq_getElem _ _ (by rw [List.length_set]; omega),
                List.getElem_set_self, hu2]
          · have hsetu : (cfg.unitsRem.set u ([] : List OrchAction)).getD i [] =
                cfg.unitsRem.getD i [] := by
              rw [List.getD_eq_getElem?_getD, List.getElem?_set_ne (fun h2 => hiu h2.symm),
                ← List.getD_eq_getElem?_getD]
            have hsetr : (appendReplyAt cfg.sess.Responses u
                (mkReplyComment (c.replyUsername u) (texts u))).getD i default =
                cfg.sess.Responses.getD i default := by
              rw [happ, List.getD_eq_getElem?_getD,
                List.getElem?_set_ne (fun h2 => hiu h2.symm),
                ← List.getD_eq_getElem?_getD]
            rcases hunits i hiN with ⟨hi1, hi2⟩ | ⟨hi1, hi2⟩
            · left
              refine ⟨by rw [hsetu]; exact hi1, ?_⟩
              show (appendReplyAt cfg.sess.Responses u
                (mkReplyComment (c.replyUsername u) (texts u))).getD i default = _
              rw [hsetr]
              exact hi2
            · right
              refine ⟨by rw [hsetu]; exact hi1, ?_⟩
              show (appendReplyAt cfg.sess.Responses u
                (mkReplyComment (c.replyUsername u) (texts u))).getD i default = _
              rw [hsetr]
              exact hi2
      · -- the goroutine already finished: no-op
        rw [hu1] at hget
        have hstep : stepChoice cfg (SchedChoice.unitStep u) = cfg := by
          simp only [stepChoice, hget]
        rw [hstep]
        exact ⟨hm, hul, hrl, herr, hsel, hunits⟩
    · have hget : cfg.unitsRem.get? u = none := by
        rw [List.get?_eq_getElem?, List.getElem?_eq_none]
        omega
      have hstep : stepChoice cfg (SchedChoice.unitStep u) = cfg := by
        simp only [stepChoice, hget]
      rw [hstep]
      exact ⟨hm, hul, hrl, herr, hsel, hunits⟩

end ShadowReddit

namespace ShadowReddit

/-- The configuration of a session whose main loop has ended with `N`
comments appended and `N` reply goroutines spawned and still pending. -/
def fanoutConfig (c : Collab) (N : Nat) (st0 : SessionState) : OrchConfig :=
  { mainRem := [],
    unitsRem := (List.range N).map (fun k => replyUnitActions c k),
    sess := st0 }

/-- Claim C9: a successful reply append mutates only the `Replies` of
the comment at its parent index (frame part), and under `N` concurrent
reply goroutines - one per parent index, all successful - any schedule
that drains them all leaves exactly one new reply on each of the `N`
parents, the designated one, regardless of completion order; the
comment count, `Error` and `SelectedStances` are untouched. -/
theorem reply_fanout_frame (c : Collab) (N : Nat) (texts : Nat → String)
    (st0 : SessionState)
    (hok : ∀ k, k < N → c.replyResult k = Except.ok (texts k))
    (hlen : st0.Responses.length = N)
    (sched : List SchedChoice)
    (hdrained : ∀ u ∈ (runSched (fanoutConfig c N st0) sched).unitsRem, u = []) :
    (∀ (st : SessionState) (i : Nat) (child : SimulatedComment),
      (applyAction st (OrchAction.appendReply i child)).Done = st.Done
      ∧ (applyAction st (OrchAction.appendReply i child)).Error = st.Error
      ∧ (applyAction st (OrchAction.appendReply i child)).SelectedStances =
          st.SelectedStances
      ∧ (applyAction st (OrchAction.appendReply i child)).Responses.length =
          st.Responses.length
      ∧ (∀ (j : Nat) (hj : j < st.Responses.length)
          (hj2 : j < (applyAction st (OrchAction.appendReply i child)).Responses.length),
          j ≠ i →
          (applyAction st (OrchAction.appendReply i child)).Responses.get ⟨j, hj2⟩ =
            st.Responses.get ⟨j, hj⟩))
    ∧ ((runSched (fanoutConfig c N st0) sched).sess.Responses.length = N
      ∧ (runSched (fanoutConfig c N st0) sched).sess.Error = st0.Error
      ∧ (runSched (fanoutConfig c N st0) sched).sess.SelectedStances =
          st0.SelectedStances
      ∧ ∀ i, i < N →
        (runSched (fanoutConfig c N st0) sched).sess.Responses.getD i default =
          (st0.Responses.getD i default).pushReply
            (mkReplyComment (c.replyUsername i) (texts i))) := by
  constructor
  · intro st i child
    obtain ⟨hl2, hpres⟩ := appendReplyAt_preserves st.Responses i child
    refine ⟨rfl, rfl, rfl, hl2, ?_⟩
    intro j hj hj2 hji
    exact (hpres j hj (by rw [hl2]; exact hj)).2.2.2 hji
  · have hinit : C9Inv c N texts st0 (fanoutConfig c N st0) := by
      refine ⟨rfl, ?_, hlen, rfl, rfl, ?_⟩
      · show ((List.range N).map (fun k => replyUnitActions c k)).length = N
        rw [List.length_map, List.length_range]
      · intro i hiN
        left
        refine ⟨?_, rfl⟩
        have hiL : i < ((List.range N).map (fun k => replyUnitActions c k)).length := by
          rw [List.length_map, List.length_range]
          exact hiN
        show ((List.range N).map (fun k => replyUnitActions c k)).getD i [] = _
        rw [List.getD_eq_getElem _ _ hiL, List.getElem_map, List.getElem_range]
    have hinv : C9Inv c N texts st0 (runSched (fanoutConfig c N st0) sched) :=
      runSched_inv _ (C9Inv_step c N texts st0 hok) sched _ hinit
    obtain ⟨_, hul, hrl, herr, hsel, hunits⟩ := hinv
    refine ⟨hrl, herr, hsel, ?_⟩
    intro i hiN
    rcases hunits i hiN with ⟨hi1, _⟩ | ⟨_, hi2⟩
    · exfalso
      have hiL : i < (runSched (fanoutConfig c N st0) sched).unitsRem.length := by
        omega
      have hmem : (runSched (fanoutConfig c N st0) sched).unitsRem.getD i [] ∈
          (runSched (fanoutConfig c N st0) sched).unitsRem := by
        rw [List.getD_eq_getElem _ _ hiL]
        exact List.getElem_mem _
      have := hdrained _ hmem
      rw [hi1, replyUnitActions, hok i hiN] at this
      cases this
    · exact hi2

/-- The concrete collaborator of the fan-out witness: two reply
goroutines, both successful. -/
def collabC9 : Collab :=
  { stanceOutcome := ChatOutcome.arguments [stanceSupportive],
    commentResult := fun _ => Except.ok "t0",
    replyResult := fun _ => Except.ok "r0",
    replyUsername := fun _ => "ReplyMaster" }

/-- The two-comment base session of the fan-out witness. -/
def st0C9 : SessionState :=
  ⟨[], [mkComment "a" "f" "t1", mkComment "b" "g" "t2"], false, none⟩

/-- Witness for `reply_fanout_frame`: two reply goroutines drained in
reverse order still deliver each reply to its own parent. -/
theorem reply_fanout_frame_witness :
    (∀ k, k < 2 → collabC9.replyResult k = Except.ok "r0")
    ∧ st0C9.Responses.length = 2
    ∧ (∀ u ∈ (runSched (fanoutConfig collabC9 2 st0C9)
        [SchedChoice.unitStep 1, SchedChoice.unitStep 0]).unitsRem, u = [])
    ∧ (∀ i, i < 2 →
        (runSched (fanoutConfig collabC9 2 st0C9)
          [SchedChoice.unitStep 1, SchedChoice.unitStep 0]).sess.Responses.getD i default =
        (st0C9.Responses.getD i default).pushReply
          (mkReplyComment (collabC9.replyUsername i) "r0")) := by
  have hok : ∀ k, k < 2 → collabC9.replyResult k = Except.ok ((fun _ => "r0") k) :=
    fun k _ => rfl
  have hdrained : ∀ u ∈ (runSched (fanoutConfig collabC9 2 st0C9)
      [SchedChoice.unitStep 1, SchedChoice.unitStep 0]).unitsRem, u = [] := by
    intro u hu
    have hu2 : u ∈ [([] : List OrchAction), []] := hu
    rcases List.mem_cons.mp hu2 with h | h
    · exact h
    rcases List.mem_singleton.mp h with h2
    exact h2
  have happ := reply_fanout_frame collabC9 2 (fun _ => "r0") st0C9 hok rfl
    [SchedChoice.unitStep 1, SchedChoice.unitStep 0] hdrained
  exact ⟨hok, rfl, hdrained, happ.2.2.2.2⟩

end ShadowReddit
